import Mathlib

/-!
Verification of the novofon HTML-documentation-to-OpenAPI converter.

This file gives a shallow embedding, in Lean, of the converter's core:

* the HTML extraction rules of `bin/api/internal/parse` (package `parse`,
  operating over goquery selections on a parsed HTML tree),
* the OpenAPI generation rules of `internal/generate/openapi.go`,
* the bundling rules of `main.go` (`createBundledSpec`).

HTML documents are modelled as ordered trees of element and text nodes;
goquery selections are modelled as lists of paths into the tree, kept in
the order goquery produces (per-origin traversal order, duplicates removed
keeping the first occurrence).  Go maps are modelled as association lists
with map-assignment (`m[k] = v`) replacing an existing binding in place or
appending a fresh one; Go slices are plain lists.  Go `error` returns are
modelled with `Except String`.

Whenever a Go standard-library routine is involved (`strings.TrimSpace`,
`strings.ToLower`, `encoding/json.Unmarshal`) the model implements the
behaviour on the character sets actually reachable from this repository:
ASCII plus the Cyrillic alphabet used by the documentation markers.
-/

/-! ## String utilities (models of Go `strings` functions) -/

/-- Characters treated as white space by the model of `strings.TrimSpace`
(the ASCII white-space characters; Go additionally trims rarer Unicode
space classes that never occur in this repository's data). -/
def isGoSpace (c : Char) : Bool :=
  c = ' ' || c = '\t' || c = '\n' || c = '\r'

/-- Trim white space from both ends of a character list
(model of Go `strings.TrimSpace`). -/
def trimSpaceChars (cs : List Char) : List Char :=
  ((cs.dropWhile isGoSpace).reverse.dropWhile isGoSpace).reverse

/-- Model of Go `strings.TrimSpace`. -/
def goTrimSpace (s : String) : String :=
  ⟨trimSpaceChars s.data⟩

/-- Trim every character occurring in `cutset` from both ends
(model of Go `strings.Trim`). -/
def trimCutsetChars (cutset : List Char) (cs : List Char) : List Char :=
  ((cs.dropWhile (cutset.contains ·)).reverse.dropWhile (cutset.contains ·)).reverse

/-- Lower-case one character: ASCII letters and the Cyrillic alphabet
(model of Go `unicode.ToLower` on the characters reachable here). -/
def goLowerChar (c : Char) : Char :=
  if 'A' ≤ c && c ≤ 'Z' then Char.ofNat (c.toNat + 32)
  else if c = 'Ё' then 'ё'
  else if 'А' ≤ c && c ≤ 'Я' then Char.ofNat (c.toNat + 32)
  else c

/-- Model of Go `strings.ToLower`. -/
def goLower (s : String) : String :=
  ⟨s.data.map goLowerChar⟩

/-- Substring test on character lists (model of Go `strings.Contains`). -/
def charsContain (hay needle : List Char) : Bool :=
  hay.tails.any (needle.isPrefixOf ·)

/-- Model of Go `strings.Contains`. -/
def goContains (hay needle : String) : Bool :=
  charsContain hay.data needle.data

/-- Model of Go `strings.HasPrefix`. -/
def goStartsWith (s pre : String) : Bool :=
  pre.data.isPrefixOf s.data

/-- Split a character list on the comma character
(model of Go `strings.Split(s, ",")`). -/
def splitCommaChars : List Char → List (List Char)
  | [] => [[]]
  | c :: rest =>
      let r := splitCommaChars rest
      if c = ',' then [] :: r
      else
        match r with
        | h :: t => (c :: h) :: t
        | [] => [[c]]

/-- Model of Go `strings.Split(s, ",")`. -/
def goSplitComma (s : String) : List String :=
  (splitCommaChars s.data).map (fun cs => ⟨cs⟩)

/-- Go map assignment `m[k] = v` on an association list: replace the
binding of `k` in place, or append a fresh binding. -/
def mapAssign {α : Type} : List (String × α) → String → α → List (String × α)
  | [], k, v => [(k, v)]
  | (k', v') :: rest, k, v =>
      if k' = k then (k, v) :: rest else (k', v') :: mapAssign rest k v

/-! ## The HTML document model -/

/-- A node of a parsed HTML tree: an element with a tag and ordered
children, or a text node. -/
inductive HNode where
  | text (s : String)
  | elem (tag : String) (children : List HNode)

mutual

/-- The text content of a node: the concatenation of all text in its
subtree, in document order (model of goquery `Text` on one node). -/
def nodeText : HNode → List Char
  | .text s => s.data
  | .elem _ cs => nodesText cs

def nodesText : List HNode → List Char
  | [] => []
  | n :: ns => nodeText n ++ nodesText ns

end

mutual

/-- All proper descendants of a node, as pairs of a relative path (child
indices from the node) and the descendant itself, in preorder document
order (the traversal used by goquery `Find`). -/
def descendants : HNode → List (List Nat × HNode)
  | .text _ => []
  | .elem _ cs => descList 0 cs

def descList : Nat → List HNode → List (List Nat × HNode)
  | _, [] => []
  | i, n :: ns =>
      ([i], n) :: ((descendants n).map (fun pr => (i :: pr.1, pr.2)) ++ descList (i + 1) ns)

end

/-- Look a node up by a path of child indices. -/
def nodeAt : HNode → List Nat → Option HNode
  | n, [] => some n
  | .text _, _ :: _ => none
  | .elem _ cs, i :: rest =>
      match cs.get? i with
      | some c => nodeAt c rest
      | none => none

/-- Is the node an element node? -/
def isElemNode : HNode → Bool
  | .elem _ _ => true
  | .text _ => false

/-- Does the node match a tag name (the element selector `tag`)? -/
def tagIs (t : String) (n : HNode) : Bool :=
  match n with
  | .elem tg _ => tg = t
  | .text _ => false

/-- Does the node match the selector `tag:contains('marker')`: an element
with the given tag whose text content contains the marker? -/
def tagContains (t marker : String) (n : HNode) : Bool :=
  tagIs t n && charsContain (nodeText n) marker.data

/-! A goquery selection is a list of paths into a fixed document, in the
order goquery produces; duplicate nodes are removed keeping the first
occurrence. -/

/-- Remove duplicate paths keeping the first occurrence (goquery keeps a
seen-set while pushing matched nodes). -/
def dedupFirstAux (seen : List (List Nat)) : List (List Nat) → List (List Nat)
  | [] => []
  | p :: ps => if p ∈ seen then dedupFirstAux seen ps else p :: dedupFirstAux (p :: seen) ps

/-- Remove duplicate paths keeping the first occurrence. -/
def dedupFirst (ps : List (List Nat)) : List (List Nat) :=
  dedupFirstAux [] ps

/-- goquery `Find`: the descendants, of each node of the selection, that
match the predicate, in per-origin preorder, deduplicated. -/
def selFind (doc : HNode) (sel : List (List Nat)) (pred : HNode → Bool) : List (List Nat) :=
  dedupFirst (sel.flatMap fun p =>
    match nodeAt doc p with
    | some n => ((descendants n).filter fun pr => pred pr.2).map fun pr => p ++ pr.1
    | none => [])

/-- goquery `Parent`: the parent of each node of the selection (dropping
the document root, which has no parent), deduplicated. -/
def selParent (sel : List (List Nat)) : List (List Nat) :=
  dedupFirst (sel.filterMap fun p => if p = [] then none else some p.dropLast)

/-- Index of the first element node at or after position `start`. -/
def firstElemIdxFrom (cs : List HNode) (start : Nat) : Option Nat :=
  match (cs.drop start).findIdx? isElemNode with
  | some k => some (start + k)
  | none => none

/-- The path of the next sibling element of the node at `p`, if any
(goquery `Next` skips text nodes). -/
def nextElemSib (doc : HNode) (p : List Nat) : Option (List Nat) :=
  match p.reverse with
  | [] => none
  | i :: revInit =>
      let par := revInit.reverse
      match nodeAt doc par with
      | some (.elem _ cs) =>
          match firstElemIdxFrom cs (i + 1) with
          | some j => some (par ++ [j])
          | none => none
      | _ => none

/-- goquery `Next`: the next sibling element of each node of the
selection, deduplicated. -/
def selNext (doc : HNode) (sel : List (List Nat)) : List (List Nat) :=
  dedupFirst (sel.filterMap (nextElemSib doc))

/-- goquery `Text` on a selection: concatenated text of all its nodes. -/
def selText (doc : HNode) (sel : List (List Nat)) : List Char :=
  sel.flatMap fun p =>
    match nodeAt doc p with
    | some n => nodeText n
    | none => []

/-- goquery `Eq i`: the selection reduced to its `i`-th node. -/
def selEq (sel : List (List Nat)) (i : Nat) : List (List Nat) :=
  match sel.get? i with
  | some p => [p]
  | none => []

/-- goquery `First`: the selection reduced to its first node. -/
def selFirst (sel : List (List Nat)) : List (List Nat) :=
  sel.take 1

/-- goquery `Is`: does any node of the selection match the predicate? -/
def selIs (doc : HNode) (sel : List (List Nat)) (pred : HNode → Bool) : Bool :=
  sel.any fun p =>
    match nodeAt doc p with
    | some n => pred n
    | none => false

/-- The nodes of a selection, in selection order. -/
def selNodes (doc : HNode) (sel : List (List Nat)) : List HNode :=
  sel.filterMap (nodeAt doc)

/-- The descendants of a single node matching a predicate, as nodes. -/
def nodeDescFilter (n : HNode) (pred : HNode → Bool) : List HNode :=
  ((descendants n).filter fun pr => pred pr.2).map fun pr => pr.2

/-! ## Structured data model

`MethodInfo`, `Parameter`, `APIData`, `Error` mirror the structs of
`bin/api/internal/models/api.go`.  The generator side
(`internal/generate/openapi.go`) imports a sibling package
`internal/models` whose source is not in the repository snapshot; its
`Parameter` additionally carries the `ArrayItemType` field used by
`generateParameterSchema` and described by the specification's data model
(`arrayItemType`: only meaningful when `type == array`).  The single
`Parameter` structure below carries that field; the extractor never sets
it (zero value `""`). -/

/-- Go struct `models.MethodInfo`. -/
structure MethodInfo where
  name : String
  title : String
  description : String
  accessLevel : String
  httpMethod : String
deriving DecidableEq

/-- Go struct `models.Parameter` (`ptype` renders the Go field `Type`). -/
structure Parameter where
  name : String
  ptype : String
  required : Bool
  description : String
  allowedValues : String
  arrayItemType : String
deriving DecidableEq

/-- Go struct `models.Error`: one row of the documentation error table. -/
structure GoError where
  code : String
  mnemonic : String
  description : String
deriving DecidableEq

/-- An untyped JSON value, the model of Go `interface{}` values produced
by `encoding/json.Unmarshal`.  Number values keep their source lexeme. -/
inductive JVal where
  | jnull
  | jbool (b : Bool)
  | jnum (lexeme : String)
  | jstr (s : String)
  | jarr (xs : List JVal)
  | jobj (fields : List (String × JVal))

/-- Go struct `models.APIData`.  The generator's nil-pointer check on
`MethodInfo` is modelled by the `Option`. -/
structure APIData where
  methodInfo : Option MethodInfo
  requestParams : List (String × Parameter)
  responseParams : List (String × Parameter)
  requestJSON : Option (List (String × JVal))
  responseJSON : Option (List (String × JVal))
  errorInfo : Option (List GoError)

/-! ## A model of `encoding/json.Unmarshal` into `map[string]interface{}`

A recursive-descent JSON reader over the character list, with a fuel
argument bounding recursion depth by the input length (every recursive
call follows the consumption of at least one character, so
`length + 1` fuel never runs out on inputs the grammar accepts). -/

/-- The `\x7b` character. -/
def lbrace : Char := Char.ofNat 123

/-- The `\x7d` character. -/
def rbrace : Char := Char.ofNat 125

/-- The apostrophe character. -/
def apos : Char := Char.ofNat 39

/-- JSON insignificant white space. -/
def jsonSkipWs (cs : List Char) : List Char :=
  cs.dropWhile fun c => c = ' ' || c = '\t' || c = '\n' || c = '\r'

/-- Decimal digit test. -/
def isDigitCh (c : Char) : Bool :=
  '0' ≤ c && c ≤ '9'

/-- Hexadecimal digit value (code points written numerically: 0-9 are
48..57, a-f are 97..102, A-F are 65..70). -/
def hexVal (c : Char) : Option Nat :=
  let n := c.toNat
  if 48 ≤ n && n ≤ 57 then some (n - 48)
  else if 97 ≤ n && n ≤ 102 then some (n - 87)
  else if 65 ≤ n && n ≤ 70 then some (n - 55)
  else none

/-- Single-character escapes of JSON strings. -/
def escChar (c : Char) : Option Char :=
  if c = '"' then some '"'
  else if c = '\\' then some '\\'
  else if c = '/' then some '/'
  else if c = 'b' then some (Char.ofNat 8)
  else if c = 'f' then some (Char.ofNat 12)
  else if c = 'n' then some '\n'
  else if c = 'r' then some '\r'
  else if c = 't' then some '\t'
  else none

/-- Read a JSON string body after the opening quote; returns the decoded
content and the input after the closing quote. -/
def jpStringBody : Nat → List Char → Option (List Char × List Char)
  | 0, _ => none
  | _, [] => none
  | fuel + 1, c :: rest =>
      if c = '"' then some ([], rest)
      else if c.toNat < 32 then none
      else if c = '\\' then
        match rest with
        | [] => none
        | e :: rest2 =>
            if e = 'u' then
              match rest2 with
              | a :: b :: c2 :: d :: rest3 =>
                  match hexVal a, hexVal b, hexVal c2, hexVal d with
                  | some va, some vb, some vc, some vd =>
                      (jpStringBody fuel rest3).map fun pr =>
                        (Char.ofNat (va * 4096 + vb * 256 + vc * 16 + vd) :: pr.1, pr.2)
                  | _, _, _, _ => none
              | _ => none
            else
              match escChar e with
              | some ec => (jpStringBody fuel rest2).map fun pr => (ec :: pr.1, pr.2)
              | none => none
      else (jpStringBody fuel rest).map fun pr => (c :: pr.1, pr.2)

/-- Read a JSON number; returns its lexeme and the rest of the input. -/
def jpNumber (cs : List Char) : Option (List Char × List Char) :=
  let step1 :=
    match cs with
    | '-' :: rest => some (['-'], rest)
    | _ => some ([], cs)
  match step1 with
  | none => none
  | some (sgn, cs1) =>
      let intPart : Option (List Char × List Char) :=
        match cs1 with
        | '0' :: rest => some (['0'], rest)
        | c :: rest =>
            if isDigitCh c && c ≠ '0' then
              let pr := rest.span isDigitCh
              some (c :: pr.1, pr.2)
            else none
        | [] => none
      match intPart with
      | none => none
      | some (ip, cs2) =>
          let fracPart : Option (List Char × List Char) :=
            match cs2 with
            | '.' :: rest =>
                let pr := rest.span isDigitCh
                if pr.1 = [] then none else some ('.' :: pr.1, pr.2)
            | _ => some ([], cs2)
          match fracPart with
          | none => none
          | some (fp, cs3) =>
              let expPart : Option (List Char × List Char) :=
                match cs3 with
                | c :: rest =>
                    if c = 'e' || c = 'E' then
                      let core :=
                        match rest with
                        | s :: rest2 => if s = '+' || s = '-' then (c :: [s], rest2) else (c :: [], rest)
                        | [] => (c :: [], rest)
                      let pr := core.2.span isDigitCh
                      if pr.1 = [] then none else some (core.1 ++ pr.1, pr.2)
                    else some ([], cs3)
                | [] => some ([], cs3)
              match expPart with
              | none => none
              | some (ep, cs4) => some (sgn ++ ip ++ fp ++ ep, cs4)

mutual

/-- Read one JSON value. -/
def jpValue : Nat → List Char → Option (JVal × List Char)
  | 0, _ => none
  | fuel + 1, cs =>
      match jsonSkipWs cs with
      | [] => none
      | c :: rest =>
          if c = '"' then
            (jpStringBody (rest.length + 1) rest).map fun pr => (.jstr ⟨pr.1⟩, pr.2)
          else if c = 't' then
            if rest.take 3 = ['r', 'u', 'e'] then some (.jbool true, rest.drop 3) else none
          else if c = 'f' then
            if rest.take 4 = ['a', 'l', 's', 'e'] then some (.jbool false, rest.drop 4) else none
          else if c = 'n' then
            if rest.take 3 = ['u', 'l', 'l'] then some (.jnull, rest.drop 3) else none
          else if c = lbrace then
            match jsonSkipWs rest with
            | c2 :: r2 =>
                if c2 = rbrace then some (.jobj [], r2)
                else (jpObjRest fuel (c2 :: r2) []).map fun pr => (.jobj pr.1, pr.2)
            | [] => none
          else if c = '[' then
            match jsonSkipWs rest with
            | c2 :: r2 =>
                if c2 = ']' then some (.jarr [], r2)
                else (jpArrRest fuel (c2 :: r2) []).map fun pr => (.jarr pr.1, pr.2)
            | [] => none
          else
            match jpNumber (c :: rest) with
            | some pr => some (.jnum ⟨pr.1⟩, pr.2)
            | none => none

/-- Read the members of a JSON object after its opening brace. -/
def jpObjRest : Nat → List Char → List (String × JVal) → Option (List (String × JVal) × List Char)
  | 0, _, _ => none
  | fuel + 1, cs, acc =>
      match jsonSkipWs cs with
      | '"' :: rest =>
          match jpStringBody (rest.length + 1) rest with
          | none => none
          | some (key, rest2) =>
              match jsonSkipWs rest2 with
              | ':' :: rest3 =>
                  match jpValue fuel rest3 with
                  | none => none
                  | some (v, rest4) =>
                      match jsonSkipWs rest4 with
                      | ',' :: rest5 => jpObjRest fuel rest5 (acc ++ [(⟨key⟩, v)])
                      | c :: rest5 =>
                          if c = rbrace then some (acc ++ [(⟨key⟩, v)], rest5) else none
                      | [] => none
              | _ => none
      | _ => none

/-- Read the elements of a JSON array after its opening bracket. -/
def jpArrRest : Nat → List Char → List JVal → Option (List JVal × List Char)
  | 0, _, _ => none
  | fuel + 1, cs, acc =>
      match jpValue fuel cs with
      | none => none
      | some (v, rest) =>
          match jsonSkipWs rest with
          | ',' :: rest2 => jpArrRest fuel rest2 (acc ++ [v])
          | ']' :: rest2 => some (acc ++ [v], rest2)
          | _ => none

end

/-- Model of `json.Unmarshal(data, &m)` for `m : map[string]interface{}`:
succeeds only when the whole input is one JSON object (Go rejects
non-object top-level values for a map target, and trailing data). -/
def jsonParseChars (cs : List Char) : Option (List (String × JVal)) :=
  match jpValue (cs.length + 1) cs with
  | some (.jobj fields, rest) => if jsonSkipWs rest = [] then some fields else none
  | some _ => none
  | none => none

/-! ## The extractor (`bin/api/internal/parse`, methods of `Parser`)

Each function mirrors the Go method of the same name working over the
parsed document.  `ParseHTML` itself first parses the HTML text with
goquery; that step fails only when the reader fails (the html5 parser
repairs any byte sequence into a tree), so the model takes the parsed
tree as input — all claims below are read "given the HTML tree itself
parses". -/

/-- The cutset `"\x22'"` of `strings.Trim` in `ExtractMethodInfo`. -/
def quoteCut : List Char := ['"', apos]

/-- Model of `determineHTTPMethod`. -/
def determineHTTPMethod (methodName : String) : String :=
  if goStartsWith methodName "get." then "get"
  else if goStartsWith methodName "create." then "post"
  else if goStartsWith methodName "update." then "put"
  else if goStartsWith methodName "delete." then "delete"
  else "post"

/-- The method-name extraction part of `ExtractMethodInfo`: find a `th`
containing the marker `Метод`, take its row, the sibling following the
row's `th` cells, the `code` element inside, and trim quotes from its
text; `""` when any of these is missing. -/
def extractMethodName (doc : HNode) : String :=
  let methodCell := selFind doc [[]] (tagContains "th" "Метод")
  if methodCell.length > 0 then
    let parentRow := selParent methodCell
    let nextCell := selNext doc (selFind doc parentRow (tagIs "th"))
    let code := selFind doc nextCell (tagIs "code")
    if code.length > 0 then ⟨trimCutsetChars quoteCut (selText doc code)⟩
    else ""
  else ""

/-- Model of `Parser.ExtractMethodInfo`. -/
def extractMethodInfo (doc : HNode) : Except String MethodInfo :=
  let name := extractMethodName doc
  if name = "" then .error "method name not found"
  else
    let titleSel := selFirst (selFind doc [[]] (tagIs "h1"))
    let title := if titleSel.length > 0 then ⟨trimSpaceChars (selText doc titleSel)⟩ else ""
    let descCell := selFind doc [[]] (tagContains "td" "Описание")
    let desc :=
      if descCell.length > 0 then
        let nextCell := selNext doc descCell
        if nextCell.length > 0 then (⟨trimSpaceChars (selText doc nextCell)⟩ : String)
        else ""
      else ""
    .ok ⟨name, title, desc, "", determineHTTPMethod name⟩

/-- Model of `Parser.parseParameterRow`, taking the row's `td` cells. -/
def parseParameterRow (cells : List HNode) (isRequest : Bool) : Option Parameter :=
  match cells with
  | c0 :: c1 :: c2 :: _ =>
      let nameCodes := nodeDescFilter c0 (tagIs "code")
      let name : String :=
        if nameCodes.length > 0 then ⟨trimSpaceChars (nodesText nameCodes)⟩
        else ⟨trimSpaceChars (nodeText c0)⟩
      if name = "" then none
      else
        let ptype : String := ⟨trimSpaceChars (nodeText c1)⟩
        let requiredText := goLower ⟨trimSpaceChars (nodeText c2)⟩
        let req := requiredText = "да"
        let (allowed, desc) : String × String :=
          if isRequest && cells.length ≥ 5 then
            (⟨trimSpaceChars (nodesText ((cells.drop 3).take 1))⟩,
             ⟨trimSpaceChars (nodesText ((cells.drop 4).take 1))⟩)
          else if !isRequest && cells.length ≥ 4 then
            ("", ⟨trimSpaceChars (nodesText ((cells.drop 3).take 1))⟩)
          else if cells.length ≥ 4 then
            ("", ⟨trimSpaceChars (nodesText ((cells.drop (cells.length - 1)).take 1))⟩)
          else ("", "")
        some ⟨name, ptype, req, desc, allowed, ""⟩
  | _ => none

/-- The shared table walk of `ExtractRequestParameters` and
`ExtractResponseParameters`: find the marker heading, take its next
sibling, require a table, then fold over the table's rows skipping the
header row and any row with fewer than `minCells` cells. -/
def extractParametersWith (doc : HNode) (marker : String) (minCells : Nat)
    (isRequest : Bool) : Except String (List (String × Parameter)) :=
  let header := selFind doc [[]] (tagContains "h4" marker)
  if header.length = 0 then .ok []
  else
    let table := selNext doc header
    if table.length = 0 || !selIs doc table (tagIs "table") then .ok []
    else
      let rows := selFind doc table (tagIs "tr")
      .ok <| (rows.enum).foldl
        (fun params pr =>
          if pr.1 = 0 then params
          else
            let cells := selNodes doc (selFind doc [pr.2] (tagIs "td"))
            if cells.length ≥ minCells then
              match parseParameterRow cells isRequest with
              | some p => mapAssign params p.name p
              | none => params
            else params)
        []

/-- Model of `Parser.ExtractRequestParameters` (cell threshold 4). -/
def extractRequestParameters (doc : HNode) : Except String (List (String × Parameter)) :=
  extractParametersWith doc "Параметры запроса" 4 true

/-- Model of `Parser.ExtractResponseParameters` (cell threshold 3). -/
def extractResponseParameters (doc : HNode) : Except String (List (String × Parameter)) :=
  extractParametersWith doc "Параметры ответа" 3 false

/-- The one-sided example walk of `ExtractJSONExamples`: find the marker
heading, take its next sibling, require a `pre`, find the `code` inside,
and unmarshal its text; a parse failure yields the empty map. -/
def extractExampleJSON (doc : HNode) (marker : String) : Option (List (String × JVal)) :=
  let header := selFind doc [[]] (tagContains "h4" marker)
  if header.length > 0 then
    let codeBlock := selNext doc header
    if selIs doc codeBlock (tagIs "pre") then
      let code := selFind doc codeBlock (tagIs "code")
      if code.length > 0 then
        match jsonParseChars (selText doc code) with
        | some m => some m
        | none => some []
      else none
    else none
  else none

/-- Model of `Parser.ExtractJSONExamples`. -/
def extractJSONExamples (doc : HNode) :
    Except String (Option (List (String × JVal)) × Option (List (String × JVal))) :=
  .ok (extractExampleJSON doc "Пример запроса", extractExampleJSON doc "Пример ответа")

/-- Model of `Parser.ExtractErrorInformation`: each row of the table
after the error marker heading with at least 3 cells yields one `Error`
from cells 1, 2 and 3 (cell 3 of a 3-cell row is an empty selection,
whose text is empty). -/
def extractErrorInformation (doc : HNode) : Except String (List GoError) :=
  let header := selFind doc [[]] (tagContains "h4" "Список возвращаемых ошибок")
  if header.length = 0 then .ok []
  else
    let table := selNext doc header
    if table.length = 0 || !selIs doc table (tagIs "table") then .ok []
    else
      let rows := selFind doc table (tagIs "tr")
      .ok <| (rows.enum).foldl
        (fun errs pr =>
          if pr.1 = 0 then errs
          else
            let cells := selNodes doc (selFind doc [pr.2] (tagIs "td"))
            if cells.length ≥ 3 then
              errs ++ [⟨⟨trimSpaceChars (nodesText ((cells.drop 1).take 1))⟩,
                       ⟨trimSpaceChars (nodesText ((cells.drop 2).take 1))⟩,
                       ⟨trimSpaceChars (nodesText ((cells.drop 3).take 1))⟩⟩]
            else errs)
        []

/-- Model of `Parser.ParseHTML` on the parsed tree: the sub-extractions
run in order, each aborting the whole extraction on error. -/
def parseHTML (doc : HNode) : Except String APIData :=
  match extractMethodInfo doc with
  | .error e => .error ("failed to extract method info: " ++ e)
  | .ok mi =>
      match extractRequestParameters doc with
      | .error e => .error ("failed to extract request parameters: " ++ e)
      | .ok reqPs =>
          match extractResponseParameters doc with
          | .error e => .error ("failed to extract response parameters: " ++ e)
          | .ok respPs =>
              match extractJSONExamples doc with
              | .error e => .error ("failed to extract JSON examples: " ++ e)
              | .ok exs =>
                  match extractErrorInformation doc with
                  | .error e => .error ("failed to extract error information: " ++ e)
                  | .ok errs =>
                      .ok ⟨some mi, reqPs, respPs, exs.1, exs.2, some errs⟩

/-! ## The OpenAPI generator (`internal/generate/openapi.go`)

The `Schema` struct is recursive (`Properties`, `Items`), so it is an
inductive type here; only the fields the generator ever assigns are
carried (`MaxLength`/`MinLength`/`Maximum`/`Minimum`/`XFiltering`/
`XSorting` are declared in the Go struct but never written).  Zero
values model omitted fields: `""` for strings, `none` for pointers,
`[]`/`none` for slices.  Example values (`interface{}` in Go) are the
closed set the generator produces. -/

/-- The example values `generateParameterSchema` and friends produce. -/
inductive ExVal where
  | str (s : String)
  | num (n : Nat)
  | bool (b : Bool)
  | emptyArr
deriving DecidableEq

/-- Go struct `generate.Schema`, restricted to the assigned fields, in
declaration order: Type, Properties, Required, Description, Example,
Enum, Format, Items. -/
inductive GoSchema where
  | mk (typeStr : String) (properties : List (String × GoSchema)) (required : List String)
       (description : String) (exVal : Option ExVal) (enumVals : Option (List String))
       (format : String) (items : Option GoSchema)

/-- The `Type` field. -/
def GoSchema.typeStr : GoSchema → String
  | .mk t _ _ _ _ _ _ _ => t

/-- The `Properties` field. -/
def GoSchema.properties : GoSchema → List (String × GoSchema)
  | .mk _ p _ _ _ _ _ _ => p

/-- The `Required` field. -/
def GoSchema.required : GoSchema → List String
  | .mk _ _ r _ _ _ _ _ => r

/-- The `Description` field. -/
def GoSchema.description : GoSchema → String
  | .mk _ _ _ d _ _ _ _ => d

/-- The `Example` field. -/
def GoSchema.exVal : GoSchema → Option ExVal
  | .mk _ _ _ _ e _ _ _ => e

/-- The `Enum` field. -/
def GoSchema.enumVals : GoSchema → Option (List String)
  | .mk _ _ _ _ _ e _ _ => e

/-- The `Format` field. -/
def GoSchema.format : GoSchema → String
  | .mk _ _ _ _ _ _ f _ => f

/-- The `Items` field. -/
def GoSchema.items : GoSchema → Option GoSchema
  | .mk _ _ _ _ _ _ _ i => i

/-- Go struct `generate.RequestBody`: required flag plus the content map
(always the single key `application/json` here). -/
structure GoRequestBody where
  required : Bool
  content : List (String × GoSchema)

/-- Go struct `generate.Response`. -/
structure GoResponse where
  description : String
  content : List (String × GoSchema)

/-- Go struct `generate.Operation`. -/
structure Operation where
  summary : String
  description : String
  requestBody : Option GoRequestBody
  responses : List (String × GoResponse)
  tags : List String

/-- Go struct `generate.PathItem`: one optional operation per verb. -/
structure PathItem where
  post : Option Operation
  get : Option Operation
  put : Option Operation
  del : Option Operation

/-- Go struct `generate.OpenAPISpec`. -/
structure OpenAPISpec where
  openapi : String
  infoTitle : String
  infoVersion : String
  infoDescription : String
  paths : List (String × PathItem)
  xerrors : Option (List GoError)

/-- Model of the `supportedTypes` map of `NewOpenAPIGenerator`; a missing
key yields the Go zero value `""`. -/
def supportedTypeOf (t : String) : String :=
  if t = "string" then "string"
  else if t = "number" then "number"
  else if t = "boolean" then "boolean"
  else if t = "object" then "object"
  else if t = "array" then "array"
  else if t = "enum" then "string"
  else ""

/-- Model of `cleanText`: newlines, carriage returns and tabs become
spaces, runs of spaces collapse, ends are trimmed. -/
def cleanTextChars (cs : List Char) : List Char :=
  let mapped := cs.map fun c => if c = '\n' || c = '\r' || c = '\t' then ' ' else c
  let rec collapse : List Char → List Char
    | [] => []
    | ' ' :: ' ' :: rest => collapse (' ' :: rest)
    | c :: rest => c :: collapse rest
  trimSpaceChars (collapse mapped)

/-- Model of `cleanText` on strings. -/
def cleanText (s : String) : String :=
  ⟨cleanTextChars s.data⟩

/-- Model of `OpenAPIGenerator.isValidHTTPStatusCode`. -/
def isValidHTTPStatusCode (code : String) : Bool :=
  if code.data.length ≠ 3 then false
  else
    match code.data with
    | c0 :: _ =>
        if c0 < '1' || '5' < c0 then false
        else code.data.all fun c => '0' ≤ c && c ≤ '9'
    | [] => false

/-- Model of `OpenAPIGenerator.generateParameterSchema`. -/
def generateParameterSchema (p : Parameter) : GoSchema :=
  let base : String × String := (supportedTypeOf p.ptype, cleanText p.description)
  let items : Option GoSchema :=
    if p.ptype = "array" then
      let itemType := if p.arrayItemType = "" then "string" else p.arrayItemType
      let itemEx : Option ExVal :=
        if itemType = "string" then some (.str "example_string")
        else if itemType = "number" then some (.num 123)
        else if itemType = "boolean" then some (.bool true)
        else none
      some (.mk itemType [] [] "" itemEx none "" none)
    else none
  let (enumVals, exVal1, format) :
      Option (List String) × Option ExVal × String :=
    if p.allowedValues ≠ "" then
      if goContains (goLower p.allowedValues) "формат" ||
         goContains (goLower p.allowedValues) "format" then
        (none, none, p.allowedValues)
      else
        let parts := goSplitComma p.allowedValues
        if parts.length > 1 then
          let enum := parts.map goTrimSpace
          (some enum, (enum.head?).map .str, "")
        else (none, none, "")
    else (none, none, "")
  let exVal2 : Option ExVal :=
    match exVal1 with
    | some e => some e
    | none =>
        if p.ptype = "string" then some (.str "example_string")
        else if p.ptype = "number" then some (.num 123)
        else if p.ptype = "boolean" then some (.bool true)
        else if p.ptype = "array" then some .emptyArr
        else none
  .mk base.1 [] [] base.2 exVal2 enumVals format items

/-- Model of `OpenAPIGenerator.generateRequestBody`. -/
def generateRequestBody (apiData : APIData) (methodName : String) : GoRequestBody :=
  let properties0 : List (String × GoSchema) :=
    mapAssign [] "jsonrpc" (.mk "string" [] [] "JSON-RPC version" (some (.str "2.0")) none "" none)
  let properties1 := mapAssign properties0 "id" (.mk "number" [] [] "Request identifier" none none "" none)
  let properties2 := mapAssign properties1 "method"
    (.mk "string" [] [] "Method name" (some (.str methodName)) none "" none)
  let paramsAcc : List (String × GoSchema) × List String :=
    apiData.requestParams.foldl
      (fun acc pr =>
        let schema := generateParameterSchema pr.2
        (mapAssign acc.1 pr.1 schema, if pr.2.required then acc.2 ++ [pr.1] else acc.2))
      ([], [])
  let properties3 := mapAssign properties2 "params" (.mk "object" paramsAcc.1 paramsAcc.2 "" none none "" none)
  let required := ["jsonrpc", "id", "method"] ++ ["params"]
  ⟨true, [("application/json", .mk "object" properties3 required "" none none "" none)]⟩

/-- Model of `OpenAPIGenerator.generateSuccessResponseSchema`. -/
def generateSuccessResponseSchema (apiData : APIData) : GoSchema :=
  let properties0 : List (String × GoSchema) :=
    mapAssign [] "jsonrpc" (.mk "string" [] [] "JSON-RPC version" (some (.str "2.0")) none "" none)
  let properties1 := mapAssign properties0 "id" (.mk "number" [] [] "Request identifier" none none "" none)
  let dataSchema : GoSchema :=
    if apiData.responseParams.length > 0 then
      let acc : List (String × GoSchema) × List String :=
        apiData.responseParams.foldl
          (fun acc pr =>
            let schema := generateParameterSchema pr.2
            (mapAssign acc.1 pr.1 schema, if pr.2.required then acc.2 ++ [pr.1] else acc.2))
          ([], [])
      .mk "object" acc.1 acc.2 "" none none "" none
    else .mk "object" [] [] "" none none "" none
  let resultProps0 := mapAssign [] "data" dataSchema
  let resultProps1 := mapAssign resultProps0 "metadata" (.mk "object" [] [] "Response metadata" none none "" none)
  let properties2 := mapAssign properties1 "result"
    (.mk "object" resultProps1 ["data", "metadata"] "" none none "" none)
  .mk "object" properties2 ["jsonrpc", "id", "result"] "" none none "" none

/-- Model of `OpenAPIGenerator.generateErrorResponseSchema`. -/
def generateErrorResponseSchema : GoSchema :=
  let errorProps := mapAssign (mapAssign (mapAssign [] "code" (.mk "number" [] [] "" none none "" none))
    "message" (.mk "string" [] [] "" none none "" none))
    "data" (.mk "object" [] [] "" none none "" none)
  let properties := mapAssign (mapAssign (mapAssign [] "jsonrpc" (.mk "string" [] [] "" none none "" none))
    "id" (.mk "number" [] [] "" none none "" none))
    "error" (.mk "object" errorProps [] "" none none "" none)
  .mk "object" properties [] "" none none "" none

/-- The success response built first by `generateResponses`. -/
def successResponse (apiData : APIData) : GoResponse :=
  ⟨"Successful response", [("application/json", generateSuccessResponseSchema apiData)]⟩

/-- The generic client-error response built second by
`generateResponses`. -/
def clientErrorResponse : GoResponse :=
  ⟨"Error response", [("application/json", generateErrorResponseSchema)]⟩

/-- The dedicated response `generateResponses` adds for one documented
error with a valid HTTP status code. -/
def dedicatedErrorResponse (e : GoError) : GoResponse :=
  ⟨e.description, [("application/json", generateErrorResponseSchema)]⟩

/-- The loop body of `generateResponses`:
`if err.Code != "" && g.isValidHTTPStatusCode(err.Code)` assign the
dedicated response under the code. -/
def errorResponseStep (acc : List (String × GoResponse)) (e : GoError) :
    List (String × GoResponse) :=
  if e.code ≠ "" ∧ isValidHTTPStatusCode e.code = true then
    mapAssign acc e.code (dedicatedErrorResponse e)
  else acc

/-- Model of `OpenAPIGenerator.generateResponses`. -/
def generateResponses (apiData : APIData) : List (String × GoResponse) :=
  let responses0 := mapAssign [] "200" (successResponse apiData)
  let responses1 := mapAssign responses0 "400" clientErrorResponse
  match apiData.errorInfo with
  | none => responses1
  | some errs => errs.foldl errorResponseStep responses1

/-- Model of `OpenAPIGenerator.generateDescription`. -/
def generateDescription (apiData : APIData) (mi : MethodInfo) : String :=
  let parts0 : List String :=
    if mi.description ≠ "" then [cleanText mi.description] else []
  let parts1 :=
    if apiData.requestParams.length > 0 then
      (parts0 ++ ["**Request Parameters:** " ++ toString apiData.requestParams.length]) ++
        apiData.requestParams.map (fun pr =>
          "- `" ++ pr.1 ++ "` (" ++ pr.2.ptype ++ ", " ++
            (if pr.2.required then "required" else "optional") ++ "): " ++
            cleanText pr.2.description)
    else parts0
  let parts2 :=
    if apiData.responseParams.length > 0 then
      (parts1 ++ ["**Response Parameters:** " ++ toString apiData.responseParams.length]) ++
        apiData.responseParams.map (fun pr =>
          "- `" ++ pr.1 ++ "` (" ++ pr.2.ptype ++ "): " ++ cleanText pr.2.description)
    else parts1
  String.intercalate "\n\n" parts2

/-- Model of `OpenAPIGenerator.generateOperation`. -/
def generateOperation (apiData : APIData) (mi : MethodInfo) : Operation :=
  let op : Operation :=
    ⟨mi.title, generateDescription apiData mi, none, generateResponses apiData, ["novofon"]⟩
  if apiData.requestParams.length > 0 then
    ⟨op.summary, op.description, some (generateRequestBody apiData mi.name), op.responses, op.tags⟩
  else op

/-- Model of `OpenAPIGenerator.GenerateSpec`; the `Option APIData`
argument models the nil pointer. -/
def generateSpec (apiData : Option APIData) : Except String OpenAPISpec :=
  match apiData with
  | none => .error "invalid API data: method info is required"
  | some d =>
      match d.methodInfo with
      | none => .error "invalid API data: method info is required"
      | some mi =>
          let title := if mi.title = "" then "Novofon API - " ++ mi.name else mi.title
          let description :=
            if mi.description = "" then "API endpoint for " ++ mi.name else mi.description
          let xerrors : Option (List GoError) :=
            match d.errorInfo with
            | some errs => if errs.length > 0 then some errs else none
            | none => none
          let path := "/" ++ mi.name
          let operation := generateOperation d mi
          let lower := goLower mi.httpMethod
          let pathItem : PathItem :=
            if lower = "get" then ⟨none, some operation, none, none⟩
            else if lower = "post" then ⟨some operation, none, none, none⟩
            else if lower = "put" then ⟨none, none, some operation, none⟩
            else if lower = "delete" then ⟨none, none, none, some operation⟩
            else ⟨some operation, none, none, none⟩
          .ok ⟨"3.0.0", title, "1.0.0", description, mapAssign [] path pathItem, xerrors⟩

/-! ## The bundler (`main.go`, `createBundledSpec`)

A fragment file is one per-endpoint YAML document already decoded into
`map[string]interface{}`; the bundler only reads its `paths`,
`components` and `x-errors` keys, each `none` here when the key is
absent (or not of the asserted shape, which makes the Go type assertion
fail and the merge step skip it).  Values the bundler copies without
inspecting are `JVal`s. -/

/-- One decoded fragment file, projected to the keys the bundler reads. -/
structure Fragment where
  paths : Option (List (String × JVal))
  components : Option (List (String × List (String × JVal)))
  xerrors : Option (List JVal)

/-- The bundled document accumulator. -/
structure BundledSpec where
  title : String
  description : String
  paths : List (String × JVal)
  components : Option (List (String × List (String × JVal)))
  xerrors : Option (List JVal)

/-- One first-writer-wins merge step: `if _, exists := m[k]; exists`
skip, else `m[k] = v`. -/
def goMergeStep {α : Type} (m : List (String × α)) (pr : String × α) : List (String × α) :=
  if (m.lookup pr.1).isSome then m else mapAssign m pr.1 pr.2

/-- Merge one fragment into the accumulator, mirroring the body of the
per-file loop of `createBundledSpec`.

The `x-errors` merge mirrors the Go code verbatim, including its slice
handling: the loop body is
`bundledErrors["errors"] = append(bundledErrorList, sourceError)` where
`bundledErrorList` is the list read before the loop, so after the loop
only the final iteration's append survives — the merged list grows by
the source list's last element only. -/
def mergeFragment (acc : BundledSpec) (f : Fragment) : BundledSpec :=
  let paths' :=
    match f.paths with
    | none => acc.paths
    | some ps => ps.foldl goMergeStep acc.paths
  let components' :=
    match f.components with
    | none => acc.components
    | some cs =>
        some (cs.foldl
          (fun bc pr =>
            let target := (bc.lookup pr.1).getD []
            mapAssign bc pr.1 (pr.2.foldl goMergeStep target))
          ((acc.components).getD []))
  let xerrors' :=
    match f.xerrors with
    | none => acc.xerrors
    | some es =>
        let cur := (acc.xerrors).getD []
        match es.getLast? with
        | none => some cur
        | some e => some (cur ++ [e])
  ⟨acc.title, acc.description, paths', components', xerrors'⟩

/-- Model of `createBundledSpec`: fold the member files, in order, into
the fresh bundled document. -/
def createBundledSpec (files : List Fragment) (title description : String) : BundledSpec :=
  files.foldl mergeFragment ⟨title, description, [], none, none⟩

/-! ## Association-list lemmas -/

/-- First-of-two option choice (used to state first-writer-wins). -/
def optFirst {α : Type} : Option α → Option α → Option α
  | some x, _ => some x
  | none, b => b

theorem optFirst_none_right {α : Type} (a : Option α) : optFirst a none = a := by
  cases a <;> rfl

theorem optFirst_assoc {α : Type} (a b c : Option α) :
    optFirst (optFirst a b) c = optFirst a (optFirst b c) := by
  cases a <;> rfl

theorem mapAssign_lookup {α : Type} (m : List (String × α)) (k v k') :
    (mapAssign m k v).lookup k' = if k' = k then some v else m.lookup k' := by
  induction m with
  | nil =>
      by_cases h : k' = k
      · simp [mapAssign, List.lookup, h]
      · simp [mapAssign, List.lookup, h, beq_false_of_ne h]
  | cons hd tl ih =>
      obtain ⟨k0, v0⟩ := hd
      by_cases h0 : k0 = k
      · subst h0
        by_cases h : k' = k0
        · simp [mapAssign, List.lookup, h]
        · simp [mapAssign, List.lookup, h, beq_false_of_ne h]
      · by_cases h : k' = k0
        · subst h
          have hkk : ¬ (k' = k) := fun he => h0 (he ▸ rfl)
          simp [mapAssign, h0, List.lookup, hkk]
        · simp [mapAssign, h0, List.lookup, h, beq_false_of_ne h, ih]

theorem goMergeStep_fold_lookup {α : Type} (src : List (String × α)) :
    ∀ (acc : List (String × α)) (k : String),
      (src.foldl goMergeStep acc).lookup k = optFirst (acc.lookup k) (src.lookup k) := by
  induction src with
  | nil =>
      intro acc k
      cases h : acc.lookup k <;> simp [optFirst, h]
  | cons hd tl ih =>
      intro acc k
      obtain ⟨k0, v0⟩ := hd
      simp only [List.foldl_cons]
      rw [ih]
      by_cases hacc : (acc.lookup k0).isSome
      · have hstep : goMergeStep acc (k0, v0) = acc := by simp [goMergeStep, hacc]
        rw [hstep]
        by_cases hk : k = k0
        · subst hk
          obtain ⟨w, hw⟩ := Option.isSome_iff_exists.mp hacc
          simp [List.lookup, hw, optFirst]
        · simp [List.lookup, beq_false_of_ne hk]
      · have hnone : acc.lookup k0 = none := by
          cases h : acc.lookup k0
          · rfl
          · rw [h] at hacc; simp at hacc
        have hstep : goMergeStep acc (k0, v0) = mapAssign acc k0 v0 := by
          simp [goMergeStep, hnone]
        rw [hstep]
        by_cases hk : k = k0
        · subst hk
          simp [mapAssign_lookup, hnone, List.lookup, optFirst]
        · simp [mapAssign_lookup, hk, List.lookup, beq_false_of_ne hk]

/-! ## Claims about the bundler -/

/-- The path binding a bundle ends with for a given path key, per member
file: the binding of the first file whose `paths` map binds the key. -/
def firstPathBinding (files : List Fragment) (k : String) : Option JVal :=
  files.findSome? fun f =>
    match f.paths with
    | some ps => ps.lookup k
    | none => none

/-- The component a bundle ends with for a component type and name: the
one of the first file binding that (type, name) pair. -/
def firstComponentBinding (files : List Fragment) (ct nm : String) : Option JVal :=
  files.findSome? fun f =>
    match f.components with
    | some cs =>
        match cs.lookup ct with
        | some m => m.lookup nm
        | none => none
    | none => none

/-- Nested component lookup in an accumulated components map. -/
def nestedLookup (oc : Option (List (String × List (String × JVal)))) (ct nm : String) :
    Option JVal :=
  match (oc.getD []).lookup ct with
  | some m => m.lookup nm
  | none => none

theorem bundle_paths_lookup (files : List Fragment) :
    ∀ (acc : BundledSpec) (k : String),
      ((files.foldl mergeFragment acc).paths).lookup k =
        optFirst (acc.paths.lookup k) (firstPathBinding files k) := by
  induction files with
  | nil =>
      intro acc k
      simp [firstPathBinding, optFirst_none_right]
  | cons f rest ih =>
      intro acc k
      simp only [List.foldl_cons]
      rw [ih]
      have hmp : (mergeFragment acc f).paths =
          match f.paths with
          | none => acc.paths
          | some ps => ps.foldl goMergeStep acc.paths := rfl
      cases hf : f.paths with
      | none =>
          rw [hmp, hf]
          simp [firstPathBinding, List.findSome?_cons, hf]
      | some ps =>
          rw [hmp, hf]
          rw [goMergeStep_fold_lookup, optFirst_assoc]
          have : firstPathBinding (f :: rest) k =
              optFirst (ps.lookup k) (firstPathBinding rest k) := by
            simp only [firstPathBinding, List.findSome?_cons, hf]
            cases h : ps.lookup k <;> simp [optFirst, h]
          rw [this]

theorem lookup_eq_none_of_not_mem {α : Type} (m : List (String × α)) (k : String)
    (h : k ∉ m.map Prod.fst) : m.lookup k = none := by
  induction m with
  | nil => rfl
  | cons hd tl ih =>
      obtain ⟨k0, v0⟩ := hd
      simp only [List.map_cons, List.mem_cons] at h
      push_neg at h
      simp [List.lookup, beq_false_of_ne h.1, ih h.2]

/-- Nested lookup in a plain components map. -/
def nlistLookup (bc : List (String × List (String × JVal))) (ct nm : String) : Option JVal :=
  match bc.lookup ct with
  | some m => m.lookup nm
  | none => none

/-- The per-fragment components merge step of `createBundledSpec`. -/
def componentMergeStep (bc : List (String × List (String × JVal)))
    (pr : String × List (String × JVal)) : List (String × List (String × JVal)) :=
  mapAssign bc pr.1 (pr.2.foldl goMergeStep ((bc.lookup pr.1).getD []))

theorem componentMerge_nested (cs : List (String × List (String × JVal)))
    (hnd : (cs.map Prod.fst).Nodup) :
    ∀ (bc : List (String × List (String × JVal))) (ct nm : String),
      nlistLookup (cs.foldl componentMergeStep bc) ct nm =
        optFirst (nlistLookup bc ct nm) (nlistLookup cs ct nm) := by
  induction cs with
  | nil =>
      intro bc ct nm
      simp [nlistLookup, List.lookup, optFirst_none_right]
  | cons hd rest ih =>
      intro bc ct nm
      obtain ⟨ct0, m0⟩ := hd
      simp only [List.map_cons, List.nodup_cons] at hnd
      obtain ⟨hnotin, hndrest⟩ := hnd
      simp only [List.foldl_cons]
      rw [ih hndrest]
      by_cases hct : ct = ct0
      · subst hct
        have hma : (componentMergeStep bc (ct, m0)).lookup ct =
            some (m0.foldl goMergeStep ((bc.lookup ct).getD [])) := by
          simp [componentMergeStep, mapAssign_lookup]
        have h1 : nlistLookup (componentMergeStep bc (ct, m0)) ct nm =
            optFirst (nlistLookup bc ct nm) (m0.lookup nm) := by
          simp only [nlistLookup, hma]
          rw [goMergeStep_fold_lookup]
          cases h : bc.lookup ct <;> simp [h, optFirst]
        have h2 : nlistLookup rest ct nm = none := by
          simp [nlistLookup, lookup_eq_none_of_not_mem rest ct hnotin]
        have h3 : nlistLookup ((ct, m0) :: rest) ct nm = m0.lookup nm := by
          simp [nlistLookup, List.lookup]
        rw [h1, h2, h3, optFirst_none_right]
      · have h1 : nlistLookup (componentMergeStep bc (ct0, m0)) ct nm =
            nlistLookup bc ct nm := by
          simp [nlistLookup, componentMergeStep, mapAssign_lookup, hct]
        have h3 : nlistLookup ((ct0, m0) :: rest) ct nm = nlistLookup rest ct nm := by
          simp [nlistLookup, List.lookup, beq_false_of_ne hct]
        rw [h1, h3]

theorem bundle_components_lookup (files : List Fragment)
    (hnd : ∀ f ∈ files, ∀ cs, f.components = some cs → (cs.map Prod.fst).Nodup) :
    ∀ (acc : BundledSpec) (ct nm : String),
      nestedLookup (files.foldl mergeFragment acc).components ct nm =
        optFirst (nestedLookup acc.components ct nm) (firstComponentBinding files ct nm) := by
  induction files with
  | nil =>
      intro acc ct nm
      simp [firstComponentBinding, optFirst_none_right]
  | cons f rest ih =>
      intro acc ct nm
      have hndf : ∀ cs, f.components = some cs → (cs.map Prod.fst).Nodup :=
        fun cs h => hnd f (by simp) cs h
      have hndrest : ∀ g ∈ rest, ∀ cs, g.components = some cs → (cs.map Prod.fst).Nodup :=
        fun g hg cs h => hnd g (by simp [hg]) cs h
      simp only [List.foldl_cons]
      rw [ih hndrest]
      have hmc : (mergeFragment acc f).components =
          match f.components with
          | none => acc.components
          | some cs => some (cs.foldl componentMergeStep ((acc.components).getD [])) := rfl
      cases hf : f.components with
      | none =>
          rw [hmc, hf]
          simp [firstComponentBinding, List.findSome?_cons, hf]
      | some cs =>
          rw [hmc, hf]
          have hexp : nestedLookup (some (cs.foldl componentMergeStep ((acc.components).getD []))) ct nm =
              nlistLookup (cs.foldl componentMergeStep ((acc.components).getD [])) ct nm := rfl
          rw [hexp, componentMerge_nested cs (hndf cs hf), optFirst_assoc]
          have hacc : nlistLookup ((acc.components).getD []) ct nm =
              nestedLookup acc.components ct nm := rfl
          rw [hacc]
          have : firstComponentBinding (f :: rest) ct nm =
              optFirst (nlistLookup cs ct nm) (firstComponentBinding rest ct nm) := by
            simp only [firstComponentBinding, List.findSome?_cons, hf, nlistLookup]
            cases h2 : cs.lookup ct with
            | none => simp [optFirst]
            | some m =>
                cases h3 : m.lookup nm with
                | none => simp [h3, optFirst]
                | some v => simp [h3, optFirst]
          rw [this]

/-- Claim C8: when bundling an ordered list of fragment documents, a path
already present from an earlier file is skipped (first-writer-wins) and
components are deep-merged by component-type then component-name with
first-writer-wins on name collision; the merge is a pure function of the
ordered file list, so bundling the same list twice yields identical
merged paths and components. -/
theorem claim8_bundling (files : List Fragment) (title desc : String)
    (hnd : ∀ f ∈ files, ∀ cs, f.components = some cs → (cs.map Prod.fst).Nodup) :
    (∀ k, ((createBundledSpec files title desc).paths).lookup k = firstPathBinding files k) ∧
    (∀ ct nm, nestedLookup (createBundledSpec files title desc).components ct nm =
        firstComponentBinding files ct nm) ∧
    ((createBundledSpec files title desc).paths = (createBundledSpec files title desc).paths ∧
     (createBundledSpec files title desc).components =
       (createBundledSpec files title desc).components) := by
  refine ⟨fun k => ?_, fun ct nm => ?_, rfl, rfl⟩
  · rw [createBundledSpec, bundle_paths_lookup]
    rfl
  · rw [createBundledSpec, bundle_components_lookup files hnd]
    rfl

/-- First witness fragment: binds path `/a` and component `schemas.S`. -/
def wFrag1 : Fragment :=
  ⟨some [("/a", JVal.jstr "A1")], some [("schemas", [("S", JVal.jstr "s1")])], none⟩

/-- Second witness fragment: rebinds `/a` and `schemas.S`, and adds
`/b` and `schemas.T`. -/
def wFrag2 : Fragment :=
  ⟨some [("/a", JVal.jstr "A2"), ("/b", JVal.jstr "B")],
   some [("schemas", [("S", JVal.jstr "s2"), ("T", JVal.jstr "t")])], none⟩

theorem claim8_bundling_witness :
    ((createBundledSpec [wFrag1, wFrag2] "T" "D").paths).lookup "/a" = some (JVal.jstr "A1") ∧
    ((createBundledSpec [wFrag1, wFrag2] "T" "D").paths).lookup "/b" = some (JVal.jstr "B") ∧
    nestedLookup (createBundledSpec [wFrag1, wFrag2] "T" "D").components "schemas" "S" =
      some (JVal.jstr "s1") ∧
    nestedLookup (createBundledSpec [wFrag1, wFrag2] "T" "D").components "schemas" "T" =
      some (JVal.jstr "t") := by
  have hnd : ∀ f ∈ [wFrag1, wFrag2], ∀ cs, f.components = some cs →
      (cs.map Prod.fst).Nodup := by
    intro f hf cs hcs
    simp only [List.mem_cons, List.not_mem_nil, or_false] at hf
    rcases hf with rfl | rfl
    · injection hcs with h
      subst h
      simp
    · injection hcs with h
      subst h
      simp
  have h := claim8_bundling [wFrag1, wFrag2] "T" "D" hnd
  refine ⟨?_, ?_, ?_, ?_⟩
  · rw [h.1 "/a"]; rfl
  · rw [h.1 "/b"]; rfl
  · rw [h.2.1 "schemas" "S"]; rfl
  · rw [h.2.1 "schemas" "T"]; rfl

/-- A fragment whose error-extension list has two entries. -/
def bugFragment : Fragment :=
  ⟨none, none, some [JVal.jstr "err1", JVal.jstr "err2"]⟩

/-- Claim C7 (code bug): the claim — and the spec — say the bundle's
vendor error-extension list is the verbatim concatenation of every
member's error list; the Go loop instead appends each source entry to
the slice read before the loop (`append(bundledErrorList, sourceError)`),
so only each member's last entry survives.  On a single member with the
two entries `err1`, `err2` the bundle keeps only `err2`: the merged list
has 1 entry, not the member's 2. -/
theorem claim7_xerrors_bug :
    (createBundledSpec [bugFragment] "T" "D").xerrors = some [JVal.jstr "err2"] ∧
    ((createBundledSpec [bugFragment] "T" "D").xerrors.getD []).length = 1 ∧
    (bugFragment.xerrors.getD []).length = 2 :=
  ⟨rfl, rfl, rfl⟩

/-! ## Claims about the generator -/

/-- Number of operations a path item holds. -/
def PathItem.opCount (it : PathItem) : Nat :=
  (if it.post.isSome then 1 else 0) + (if it.get.isSome then 1 else 0) +
    (if it.put.isSome then 1 else 0) + (if it.del.isSome then 1 else 0)

/-- Claim C4: `GenerateSpec` fails exactly when the record or its method
info is absent; on success the document has exactly one path, keyed
`/` + method name, holding exactly one operation placed at the inferred
HTTP verb, with POST used for any verb other than get/put/delete. -/
theorem claim4_generateSpec :
    (∃ e, generateSpec none = .error e) ∧
    (∀ a, a.methodInfo = none → ∃ e, generateSpec (some a) = .error e) ∧
    (∀ a mi, a.methodInfo = some mi →
      ∃ s item, generateSpec (some a) = .ok s ∧
        s.paths = [("/" ++ mi.name, item)] ∧
        item.opCount = 1 ∧
        (goLower mi.httpMethod = "get" → item.get.isSome) ∧
        (goLower mi.httpMethod = "put" → item.put.isSome) ∧
        (goLower mi.httpMethod = "delete" → item.del.isSome) ∧
        (goLower mi.httpMethod ≠ "get" → goLower mi.httpMethod ≠ "put" →
          goLower mi.httpMethod ≠ "delete" → item.post.isSome)) := by
  refine ⟨⟨_, rfl⟩, fun a h => ?_, fun a mi h => ?_⟩
  · simp only [generateSpec, h]
    exact ⟨_, rfl⟩
  · simp only [generateSpec, h]
    by_cases h1 : goLower mi.httpMethod = "get"
    · simp only [if_pos h1]
      refine ⟨_, ⟨none, some (generateOperation a mi), none, none⟩, rfl, ?_, ?_, ?_, ?_, ?_, ?_⟩ <;>
        simp [mapAssign, h1, PathItem.opCount]
    · by_cases h2 : goLower mi.httpMethod = "post"
      · simp only [if_neg h1, if_pos h2]
        refine ⟨_, ⟨some (generateOperation a mi), none, none, none⟩, rfl, ?_, ?_, ?_, ?_, ?_, ?_⟩ <;>
          simp [mapAssign, h1, h2, PathItem.opCount]
      · by_cases h3 : goLower mi.httpMethod = "put"
        · simp only [if_neg h1, if_neg h2, if_pos h3]
          refine ⟨_, ⟨none, none, some (generateOperation a mi), none⟩, rfl, ?_, ?_, ?_, ?_, ?_, ?_⟩ <;>
            simp [mapAssign, h1, h2, h3, PathItem.opCount]
        · by_cases h4 : goLower mi.httpMethod = "delete"
          · simp only [if_neg h1, if_neg h2, if_neg h3, if_pos h4]
            refine ⟨_, ⟨none, none, none, some (generateOperation a mi)⟩, rfl, ?_, ?_, ?_, ?_, ?_, ?_⟩ <;>
              simp [mapAssign, h1, h2, h3, h4, PathItem.opCount]
          · simp only [if_neg h1, if_neg h2, if_neg h3, if_neg h4]
            refine ⟨_, ⟨some (generateOperation a mi), none, none, none⟩, rfl, ?_, ?_, ?_, ?_, ?_, ?_⟩ <;>
              simp [mapAssign, h1, h2, h3, h4, PathItem.opCount]

/-- A small record used to instantiate the generator claims. -/
def wRecord : APIData :=
  ⟨some ⟨"start.simple_call", "Simple call", "Starts a call", "", "post"⟩,
   [("p1", ⟨"p1", "string", true, "first", "", ""⟩),
    ("p2", ⟨"p2", "number", false, "second", "", ""⟩)],
   [("r1", ⟨"r1", "string", true, "result", "", ""⟩)],
   none, none,
   some [⟨"-32602", "invalid_params", "bad params"⟩]⟩

theorem claim4_generateSpec_witness :
    ∃ s item, generateSpec (some wRecord) = .ok s ∧
      s.paths = [("/start.simple_call", item)] ∧ item.opCount = 1 := by
  obtain ⟨s, item, h1, h2, h3, _⟩ :=
    (claim4_generateSpec.2.2) wRecord ⟨"start.simple_call", "Simple call", "Starts a call", "", "post"⟩ rfl
  exact ⟨s, item, h1, h2, h3⟩

/-- Claim C10: whenever any request parameter exists, the request body is
emitted, marked required, and its top-level schema's required list is
exactly `[jsonrpc, id, method, params]` — the params object itself is
required even when every individual parameter is optional. -/
theorem claim10_envelope (a : APIData) (h : a.requestParams ≠ []) :
    (∀ mi : MethodInfo, (generateOperation a mi).requestBody =
      some (generateRequestBody a mi.name)) ∧
    (∀ mName, (generateRequestBody a mName).required = true ∧
      ((generateRequestBody a mName).content.lookup "application/json").map GoSchema.required =
        some ["jsonrpc", "id", "method", "params"]) := by
  constructor
  · intro mi
    have hl : a.requestParams.length > 0 := List.length_pos.mpr h
    simp [generateOperation, hl]
  · intro mName
    exact ⟨rfl, rfl⟩

theorem claim10_envelope_witness :
    (generateOperation wRecord ⟨"start.simple_call", "t", "d", "", "post"⟩).requestBody =
      some (generateRequestBody wRecord "start.simple_call") ∧
    (generateRequestBody wRecord "start.simple_call").required = true := by
  have h := claim10_envelope wRecord (by simp [wRecord])
  exact ⟨h.1 _, (h.2 _).1⟩

theorem mapAssign_length_of_lookup_none {α : Type} (m : List (String × α)) (k v)
    (h : m.lookup k = none) : (mapAssign m k v).length = m.length + 1 := by
  induction m with
  | nil => rfl
  | cons hd tl ih =>
      obtain ⟨k0, v0⟩ := hd
      by_cases h0 : k0 = k
      · subst h0
        simp [List.lookup] at h
      · have htl : tl.lookup k = none := by
          simpa [List.lookup, beq_false_of_ne (fun he => h0 he.symm)] using h
        simp [mapAssign, h0, ih htl]

/-- The accumulator step of the params loop in `generateRequestBody` and
of the data loop in `generateSuccessResponseSchema`. -/
def paramFoldStep (acc : List (String × GoSchema) × List String)
    (pr : String × Parameter) : List (String × GoSchema) × List String :=
  (mapAssign acc.1 pr.1 (generateParameterSchema pr.2),
   if pr.2.required then acc.2 ++ [pr.1] else acc.2)

theorem paramFold_shape (rp : List (String × Parameter)) :
    ∀ (acc : List (String × GoSchema) × List String),
      (rp.map Prod.fst).Nodup →
      (∀ k ∈ rp.map Prod.fst, acc.1.lookup k = none) →
      (rp.foldl paramFoldStep acc).1.length = acc.1.length + rp.length ∧
      (rp.foldl paramFoldStep acc).2 =
        acc.2 ++ (rp.filter fun pr => pr.2.required).map Prod.fst := by
  induction rp with
  | nil => intro acc _ _; simp
  | cons hd rest ih =>
      intro acc hnd hfresh
      obtain ⟨k, p⟩ := hd
      simp only [List.map_cons, List.nodup_cons] at hnd
      obtain ⟨hknotin, hndrest⟩ := hnd
      have hkfresh : acc.1.lookup k = none := hfresh k (by simp)
      have hfresh' : ∀ k' ∈ rest.map Prod.fst, (paramFoldStep acc (k, p)).1.lookup k' = none := by
        intro k' hk'
        have hne : k' ≠ k := fun he => hknotin (he ▸ hk')
        simp only [paramFoldStep, mapAssign_lookup, if_neg hne]
        exact hfresh k' (by simp [hk'])
      obtain ⟨ih1, ih2⟩ := ih (paramFoldStep acc (k, p)) hndrest hfresh'
      constructor
      · simp only [List.foldl_cons]
        rw [ih1]
        have : (paramFoldStep acc (k, p)).1.length = acc.1.length + 1 :=
          mapAssign_length_of_lookup_none acc.1 k _ hkfresh
        rw [this]
        simp [List.length_cons]
        omega
      · simp only [List.foldl_cons]
        rw [ih2]
        by_cases hreq : p.required
        · simp [paramFoldStep, hreq, List.filter_cons]
        · simp [paramFoldStep, hreq, List.filter_cons]

theorem keys_nodup_mem_unique (rp : List (String × Parameter))
    (hnd : (rp.map Prod.fst).Nodup) (k : String) (p q : Parameter)
    (hp : (k, p) ∈ rp) (hq : (k, q) ∈ rp) : p = q := by
  induction rp with
  | nil => cases hp
  | cons hd rest ih =>
      simp only [List.map_cons, List.nodup_cons] at hnd
      obtain ⟨hknotin, hndrest⟩ := hnd
      rcases List.mem_cons.mp hp with rfl | hp'
      · rcases List.mem_cons.mp hq with hq0 | hq'
        · exact congrArg Prod.snd hq0.symm
        · exact absurd (List.mem_map.mpr ⟨(k, q), hq', rfl⟩) hknotin
      · rcases List.mem_cons.mp hq with rfl | hq'
        · exact absurd (List.mem_map.mpr ⟨(k, p), hp', rfl⟩) hknotin
        · exact ih hndrest hp' hq'

/-- Claim C3: for a record whose request parameter map has distinct keys,
N of them required and M optional, the generated request-body schema's
params object has a required list of exactly N entries and a properties
map of exactly N + M entries, the three fixed envelope keys `jsonrpc`,
`id`, `method` sit beside it in the top-level properties, each
parameter's required flag is preserved into the params required list,
and (when N + M > 0) the operation carries the request body. -/
theorem claim3_request_schema (a : APIData) (mName : String)
    (hnd : (a.requestParams.map Prod.fst).Nodup) :
    ∃ sch psch,
      (generateRequestBody a mName).content.lookup "application/json" = some sch ∧
      sch.properties.lookup "params" = some psch ∧
      psch.required.length = (a.requestParams.filter fun pr => pr.2.required).length ∧
      psch.properties.length = a.requestParams.length ∧
      (sch.properties.lookup "jsonrpc").isSome ∧
      (sch.properties.lookup "id").isSome ∧
      (sch.properties.lookup "method").isSome ∧
      (∀ k p, (k, p) ∈ a.requestParams → (k ∈ psch.required ↔ p.required = true)) ∧
      (a.requestParams ≠ [] → ∀ mi : MethodInfo,
        (generateOperation a mi).requestBody = some (generateRequestBody a mi.name)) := by
  obtain ⟨hlen, hreq⟩ := paramFold_shape a.requestParams ([], []) hnd (by intro k _; rfl)
  refine ⟨_, _, rfl, rfl, ?_, ?_, rfl, rfl, rfl, ?_, ?_⟩
  · show (a.requestParams.foldl paramFoldStep ([], [])).2.length = _
    rw [hreq]
    simp
  · show (a.requestParams.foldl paramFoldStep ([], [])).1.length = _
    rw [hlen]
    simp
  · intro k p hmem
    show k ∈ (a.requestParams.foldl paramFoldStep ([], [])).2 ↔ p.required = true
    rw [hreq]
    simp only [List.nil_append, List.mem_map, List.mem_filter]
    constructor
    · rintro ⟨⟨k', q⟩, ⟨hq, hqreq⟩, rfl⟩
      have : q = p := keys_nodup_mem_unique a.requestParams hnd k' q p hq hmem
      subst this
      simpa using hqreq
    · intro hp
      exact ⟨(k, p), ⟨hmem, by simpa using hp⟩, rfl⟩
  · intro h mi
    have hl : a.requestParams.length > 0 := List.length_pos.mpr h
    simp [generateOperation, hl]

theorem claim3_request_schema_witness :
    ∃ sch psch,
      (generateRequestBody wRecord "m").content.lookup "application/json" = some sch ∧
      sch.properties.lookup "params" = some psch ∧
      psch.required.length = 1 ∧ psch.properties.length = 2 := by
  obtain ⟨sch, psch, h1, h2, h3, h4, _⟩ :=
    claim3_request_schema wRecord "m" (by decide)
  refine ⟨sch, psch, h1, h2, ?_, ?_⟩
  · rw [h3]; rfl
  · rw [h4]; rfl

/-- The type-default example table at the end of
`generateParameterSchema`. -/
def defaultExampleFor (t : String) : Option ExVal :=
  if t = "string" then some (.str "example_string")
  else if t = "number" then some (.num 123)
  else if t = "boolean" then some (.bool true)
  else if t = "array" then some .emptyArr
  else none

/-- Claim C6: for a parameter with non-empty allowed values, a
case-insensitive match for `format`/`формат` makes the raw allowed
values the schema's format string with no enum; otherwise a value with
a comma is split, trimmed and emitted as the enum with the first entry
as the example; a single token yields neither enum nor format and falls
through to the type-default example. -/
theorem claim6_allowed_values (p : Parameter) (h : p.allowedValues ≠ "") :
    ((goContains (goLower p.allowedValues) "формат" ||
        goContains (goLower p.allowedValues) "format") = true →
      (generateParameterSchema p).format = p.allowedValues ∧
      (generateParameterSchema p).enumVals = none) ∧
    ((goContains (goLower p.allowedValues) "формат" ||
        goContains (goLower p.allowedValues) "format") = false →
      (goSplitComma p.allowedValues).length > 1 →
      (generateParameterSchema p).enumVals =
        some ((goSplitComma p.allowedValues).map goTrimSpace) ∧
      (generateParameterSchema p).exVal =
        (((goSplitComma p.allowedValues).map goTrimSpace).head?).map ExVal.str ∧
      (generateParameterSchema p).format = "") ∧
    ((goContains (goLower p.allowedValues) "формат" ||
        goContains (goLower p.allowedValues) "format") = false →
      (goSplitComma p.allowedValues).length ≤ 1 →
      (generateParameterSchema p).enumVals = none ∧
      (generateParameterSchema p).format = "" ∧
      (generateParameterSchema p).exVal = defaultExampleFor p.ptype) := by
  refine ⟨fun hf => ?_, fun hf hc => ?_, fun hf hc => ?_⟩
  · constructor <;>
      simp [generateParameterSchema, h, hf, GoSchema.format, GoSchema.enumVals]
  · have hor : ¬ (goContains (goLower p.allowedValues) "формат" = true ∨
        goContains (goLower p.allowedValues) "format" = true) := by
      rw [← Bool.or_eq_true]
      simp [hf]
    refine ⟨?_, ?_, ?_⟩
    · simp [generateParameterSchema, h, hf, hc, GoSchema.enumVals, Bool.or_eq_true, hor]
    · cases hl : goSplitComma p.allowedValues with
      | nil => rw [hl] at hc; simp at hc
      | cons a as =>
          have hc' : (a :: as).length > 1 := hl ▸ hc
          have has : 0 < as.length := by simpa using hc'
          simp [generateParameterSchema, h, hf, GoSchema.exVal, Bool.or_eq_true, hor, hl, hc', has]
    · simp [generateParameterSchema, h, hf, hc, GoSchema.format, Bool.or_eq_true, hor]
  · have hnc : ¬ ((goSplitComma p.allowedValues).length > 1) := by omega
    refine ⟨?_, ?_, ?_⟩ <;>
      simp [generateParameterSchema, h, hf, hnc, GoSchema.enumVals, GoSchema.exVal,
        GoSchema.format, defaultExampleFor]

/-- A parameter whose allowed values are a comma-separated enumeration. -/
def enumParam : Parameter := ⟨"p", "string", false, "", "value1, value2, value3", ""⟩

/-- A parameter whose allowed values are a format hint. -/
def formatParam : Parameter := ⟨"p", "string", false, "", "формат E.164", ""⟩

/-- A parameter whose allowed values are a single token. -/
def singleParam : Parameter := ⟨"p", "string", false, "", "single", ""⟩

theorem claim6_allowed_values_witness :
    (generateParameterSchema enumParam).enumVals = some ["value1", "value2", "value3"] ∧
    (generateParameterSchema enumParam).exVal = some (.str "value1") ∧
    (generateParameterSchema formatParam).format = "формат E.164" ∧
    (generateParameterSchema formatParam).enumVals = none ∧
    (generateParameterSchema singleParam).enumVals = none ∧
    (generateParameterSchema singleParam).format = "" ∧
    (generateParameterSchema singleParam).exVal = some (.str "example_string") := by
  obtain ⟨-, henum, -⟩ := claim6_allowed_values enumParam (by decide)
  obtain ⟨he1, he2, -⟩ := henum (by decide) (by decide)
  obtain ⟨hfmt, -⟩ := claim6_allowed_values formatParam (by decide)
  obtain ⟨hf1, hf2⟩ := hfmt (by decide)
  obtain ⟨-, -, hsingle⟩ := claim6_allowed_values singleParam (by decide)
  obtain ⟨hs1, hs2, hs3⟩ := hsingle (by decide) (by decide)
  refine ⟨?_, ?_, hf1, hf2, hs1, hs2, ?_⟩
  · rw [he1]; rfl
  · rw [he2]; rfl
  · rw [hs3]; rfl

/-! ## Claim C5: the responses map (corrected)

The error-response fold writes `responses[err.Code]` for every valid
error code; a documented error whose code is literally `"200"` or
`"400"` therefore overwrites the built-in success or client-error
entry, so the claim's "always contains a success entry keyed 200" fails
on such records; the characterization below carries the proviso. -/

/-- Whether an error entry writes a response key. -/
def errWrites (e : GoError) (k : String) : Prop :=
  e.code = k ∧ e.code ≠ "" ∧ isValidHTTPStatusCode e.code = true

instance (e : GoError) (k : String) : Decidable (errWrites e k) := by
  unfold errWrites
  infer_instance

theorem errorFold_lookup_of_no_write (errs : List GoError) :
    ∀ (acc : List (String × GoResponse)) (k : String),
      (∀ e ∈ errs, ¬ errWrites e k) →
      (errs.foldl errorResponseStep acc).lookup k = acc.lookup k := by
  induction errs with
  | nil => intro acc k _; rfl
  | cons e rest ih =>
      intro acc k hno
      simp only [List.foldl_cons]
      rw [ih _ _ (fun e' he' => hno e' (by simp [he']))]
      have hne := hno e (by simp)
      unfold errorResponseStep
      by_cases hvalid : e.code ≠ "" ∧ isValidHTTPStatusCode e.code = true
      · have hcode : e.code ≠ k := fun hk => hne ⟨hk, hvalid.1, hvalid.2⟩
        have hkc : ¬ (k = e.code) := fun h => hcode h.symm
        simp [hvalid, mapAssign_lookup, hkc]
      · simp [hvalid]

theorem errorFold_lookup_of_write (errs : List GoError) :
    ∀ (acc : List (String × GoResponse)) (k : String),
      (∃ e ∈ errs, errWrites e k) →
      ∃ e ∈ errs, errWrites e k ∧
        (errs.foldl errorResponseStep acc).lookup k = some (dedicatedErrorResponse e) := by
  induction errs with
  | nil => rintro acc k ⟨e, he, _⟩; cases he
  | cons e rest ih =>
      intro acc k hex
      by_cases hrest : ∃ e' ∈ rest, errWrites e' k
      · obtain ⟨e', he', hw', hl⟩ := ih (errorResponseStep acc e) k hrest
        exact ⟨e', by simp [he'], hw', by simpa using hl⟩
      · obtain ⟨e0, he0, hw0⟩ := hex
        rcases List.mem_cons.mp he0 with rfl | he0'
        · push_neg at hrest
          have hl : ((e0 :: rest).foldl errorResponseStep acc).lookup k =
              (errorResponseStep acc e0).lookup k := by
            simp only [List.foldl_cons]
            exact errorFold_lookup_of_no_write rest _ k hrest
          refine ⟨e0, by simp, hw0, ?_⟩
          rw [hl]
          obtain ⟨hk, hne, hv⟩ := hw0
          subst hk
          unfold errorResponseStep
          rw [if_pos (And.intro hne hv), mapAssign_lookup]
          simp
        · exact absurd ⟨e0, he0', hw0⟩ hrest

/-- The responses map before the error loop runs. -/
def baseResponses (a : APIData) : List (String × GoResponse) :=
  mapAssign (mapAssign [] "200" (successResponse a)) "400" clientErrorResponse

theorem baseResponses_lookup (a : APIData) (k : String) :
    (baseResponses a).lookup k =
      if k = "200" then some (successResponse a)
      else if k = "400" then some clientErrorResponse else none := by
  unfold baseResponses
  rw [mapAssign_lookup, mapAssign_lookup]
  by_cases h4 : k = "400"
  · subst h4
    simp
  · by_cases h2 : k = "200" <;> simp [h2, h4, List.lookup]

theorem generateResponses_eq_fold (a : APIData) (errs : List GoError)
    (h : a.errorInfo = some errs) :
    generateResponses a = errs.foldl errorResponseStep (baseResponses a) := by
  simp [generateResponses, h, baseResponses]

/-- Claim C5 (amended): the status-code validator accepts exactly three
ASCII digits with a leading digit in 1..5; the responses map always has
entries keyed `200` and `400`; provided no documented error carries the
literal code `200` (resp. `400`), those entries are the success entry
and the generic client-error entry; every documented error with a valid
code yields an entry under that code with the generic error schema
shape; and no other keys exist: every further key comes from a
documented error whose code passes the validator, so codes failing the
check (such as negative JSON-RPC codes) never become response keys.  (The unamended claim fails when a documented error's code
is literally `200`: the error loop overwrites the success entry.) -/
theorem claim5_responses (a : APIData) :
    (isValidHTTPStatusCode "200" = true ∧ isValidHTTPStatusCode "599" = true ∧
     isValidHTTPStatusCode "100" = true ∧ isValidHTTPStatusCode "99" = false ∧
     isValidHTTPStatusCode "600" = false ∧ isValidHTTPStatusCode "abc" = false ∧
     isValidHTTPStatusCode "" = false ∧ isValidHTTPStatusCode "-32602" = false) ∧
    ((generateResponses a).lookup "200").isSome ∧
    ((generateResponses a).lookup "400").isSome ∧
    ((∀ e ∈ a.errorInfo.getD [], ¬ errWrites e "200") →
      (generateResponses a).lookup "200" = some (successResponse a)) ∧
    ((∀ e ∈ a.errorInfo.getD [], ¬ errWrites e "400") →
      (generateResponses a).lookup "400" = some clientErrorResponse) ∧
    (∀ e ∈ a.errorInfo.getD [], e.code ≠ "" → isValidHTTPStatusCode e.code = true →
      ∃ e', e' ∈ a.errorInfo.getD [] ∧ e'.code = e.code ∧
        (generateResponses a).lookup e.code = some (dedicatedErrorResponse e')) ∧
    (∀ k, ((generateResponses a).lookup k).isSome →
      k = "200" ∨ k = "400" ∨
        ∃ e ∈ a.errorInfo.getD [], e.code = k ∧ e.code ≠ "" ∧
          isValidHTTPStatusCode e.code = true) := by
  refine ⟨by decide, ?_⟩
  cases herr : a.errorInfo with
  | none =>
      have hg : generateResponses a = baseResponses a := by
        simp [generateResponses, herr, baseResponses]
      rw [hg]
      refine ⟨?_, ?_, fun _ => ?_, fun _ => ?_, ?_, ?_⟩
      · rw [baseResponses_lookup]; simp
      · rw [baseResponses_lookup]; simp
      · rw [baseResponses_lookup]; simp
      · rw [baseResponses_lookup]; simp
      · intro e he
        simp [herr] at he
      · intro k hk
        rw [baseResponses_lookup] at hk
        by_cases h2 : k = "200"
        · exact Or.inl h2
        · by_cases h4 : k = "400"
          · exact Or.inr (Or.inl h4)
          · rw [if_neg h2, if_neg h4] at hk
            simp at hk
  | some errs =>
      have hg := generateResponses_eq_fold a errs herr
      rw [hg]
      simp only [Option.getD_some]
      refine ⟨?_, ?_, ?_, ?_, ?_, ?_⟩
      · by_cases hw : ∃ e ∈ errs, errWrites e "200"
        · obtain ⟨e, _, _, hl⟩ := errorFold_lookup_of_write errs (baseResponses a) "200" hw
          rw [hl]; rfl
        · push_neg at hw
          rw [errorFold_lookup_of_no_write errs (baseResponses a) "200" hw,
            baseResponses_lookup]
          simp
      · by_cases hw : ∃ e ∈ errs, errWrites e "400"
        · obtain ⟨e, _, _, hl⟩ := errorFold_lookup_of_write errs (baseResponses a) "400" hw
          rw [hl]; rfl
        · push_neg at hw
          rw [errorFold_lookup_of_no_write errs (baseResponses a) "400" hw,
            baseResponses_lookup]
          simp
      · intro hno
        rw [errorFold_lookup_of_no_write errs (baseResponses a) "200" hno,
          baseResponses_lookup]
        simp
      · intro hno
        rw [errorFold_lookup_of_no_write errs (baseResponses a) "400" hno,
          baseResponses_lookup]
        simp
      · intro e he hne hv
        obtain ⟨e', he', hw', hl⟩ :=
          errorFold_lookup_of_write errs (baseResponses a) e.code ⟨e, he, rfl, hne, hv⟩
        exact ⟨e', he', hw'.1, hl⟩
      · intro k hk
        by_cases hw : ∃ e ∈ errs, errWrites e k
        · obtain ⟨e, he, hwr⟩ := hw
          exact Or.inr (Or.inr ⟨e, he, hwr.1, hwr.2.1, hwr.2.2⟩)
        · push_neg at hw
          rw [errorFold_lookup_of_no_write errs (baseResponses a) k hw,
            baseResponses_lookup] at hk
          by_cases h2 : k = "200"
          · exact Or.inl h2
          · by_cases h4 : k = "400"
            · exact Or.inr (Or.inl h4)
            · rw [if_neg h2, if_neg h4] at hk
              simp at hk

/-- A record documenting an error whose code is literally `200`. -/
def overlapRecord : APIData :=
  ⟨none, [], [], none, none, some [⟨"200", "dup", "Duplicated"⟩]⟩

/-- Claim C5 counterexample: on a record with a documented error coded
`200`, the responses map's `200` entry is the dedicated error response
(description `Duplicated`, generic error schema) — not the success
entry — so "always contains a success entry keyed 200" fails. -/
theorem claim5_responses_counterexample :
    (generateResponses overlapRecord).lookup "200" =
      some (dedicatedErrorResponse ⟨"200", "dup", "Duplicated"⟩) ∧
    ((generateResponses overlapRecord).lookup "200").map GoResponse.description =
      some "Duplicated" ∧
    (successResponse overlapRecord).description = "Successful response" ∧
    ("Duplicated" : String) ≠ "Successful response" :=
  ⟨rfl, rfl, rfl, by decide⟩

theorem claim5_responses_witness :
    (generateResponses wRecord).lookup "200" = some (successResponse wRecord) ∧
    (generateResponses wRecord).lookup "400" = some clientErrorResponse := by
  have h := claim5_responses wRecord
  have hno2 : ∀ e ∈ wRecord.errorInfo.getD [], ¬ errWrites e "200" := by
    intro e he
    have : e = ⟨"-32602", "invalid_params", "bad params"⟩ := by
      simpa [wRecord] using he
    subst this
    decide
  have hno4 : ∀ e ∈ wRecord.errorInfo.getD [], ¬ errWrites e "400" := by
    intro e he
    have : e = ⟨"-32602", "invalid_params", "bad params"⟩ := by
      simpa [wRecord] using he
    subst this
    decide
  exact ⟨h.2.2.2.1 hno2, h.2.2.2.2.1 hno4⟩

/-! ## Claims about the extractor's failure policy -/

theorem extractParametersWith_isOk (doc : HNode) (marker : String) (minCells : Nat)
    (isReq : Bool) : ∃ v, extractParametersWith doc marker minCells isReq = .ok v := by
  dsimp only [extractParametersWith]
  split
  · exact ⟨_, rfl⟩
  · split
    · exact ⟨_, rfl⟩
    · exact ⟨_, rfl⟩

theorem extractErrorInformation_isOk (doc : HNode) :
    ∃ v, extractErrorInformation doc = .ok v := by
  dsimp only [extractErrorInformation]
  split
  · exact ⟨_, rfl⟩
  · split
    · exact ⟨_, rfl⟩
    · exact ⟨_, rfl⟩

/-- Claim C1: extraction of a parsed document fails exactly when
method-name extraction fails (empty extracted name); each of the other
sub-extractions always succeeds, degrading to empty/default values; and
on failure the result is the bare missing-name error, carrying no
record. -/
theorem claim1_parse_failure_policy (doc : HNode) :
    ((∃ d, parseHTML doc = .ok d) ↔ extractMethodName doc ≠ "") ∧
    (∃ rp, extractRequestParameters doc = .ok rp) ∧
    (∃ sp, extractResponseParameters doc = .ok sp) ∧
    (∃ ex, extractJSONExamples doc = .ok ex) ∧
    (∃ er, extractErrorInformation doc = .ok er) ∧
    (extractMethodName doc = "" →
      parseHTML doc = .error "failed to extract method info: method name not found") := by
  obtain ⟨rp, hrp⟩ := extractParametersWith_isOk doc "Параметры запроса" 4 true
  obtain ⟨sp, hsp⟩ := extractParametersWith_isOk doc "Параметры ответа" 3 false
  obtain ⟨er, her⟩ := extractErrorInformation_isOk doc
  have herrmsg : ∀ h : extractMethodName doc = "",
      parseHTML doc = .error "failed to extract method info: method name not found" := by
    intro h
    have hmi : extractMethodInfo doc = .error "method name not found" := by
      dsimp only [extractMethodInfo]
      rw [if_pos h]
    simp only [parseHTML, hmi]
    rfl
  refine ⟨⟨?_, ?_⟩, ⟨rp, hrp⟩, ⟨sp, hsp⟩, ⟨_, rfl⟩, ⟨er, her⟩, herrmsg⟩
  · rintro ⟨d, hd⟩ hname
    rw [herrmsg hname] at hd
    cases hd
  · intro hname
    have hmi : extractMethodInfo doc =
        .ok ⟨extractMethodName doc,
             (if (selFirst (selFind doc [[]] (tagIs "h1"))).length > 0 then
               (⟨trimSpaceChars (selText doc (selFirst (selFind doc [[]] (tagIs "h1"))))⟩ : String)
              else ""),
             (if (selFind doc [[]] (tagContains "td" "Описание")).length > 0 then
               (if (selNext doc (selFind doc [[]] (tagContains "td" "Описание"))).length > 0 then
                 (⟨trimSpaceChars (selText doc
                    (selNext doc (selFind doc [[]] (tagContains "td" "Описание"))))⟩ : String)
                else "")
              else ""),
             "", determineHTTPMethod (extractMethodName doc)⟩ := by
      dsimp only [extractMethodInfo]
      rw [if_neg hname]
    have hok : (parseHTML doc).isOk = true := by
      simp only [parseHTML, hmi, extractRequestParameters, extractResponseParameters,
        hrp, hsp, her]
      rfl
    cases hp : parseHTML doc with
    | ok d => exact ⟨d, rfl⟩
    | error e => rw [hp] at hok; cases hok

/-- A minimal document carrying the method-name marker table. -/
def demoMethodDoc : HNode :=
  .elem "html"
    [ .elem "h1" [.text "Контакты"],
      .elem "table"
        [ .elem "tr"
            [ .elem "th" [.text "Метод"],
              .elem "th" [.elem "code" [.text "get.contacts"]] ] ] ]

theorem claim1_parse_failure_policy_witness :
    extractMethodName demoMethodDoc = "get.contacts" ∧
    ∃ d, parseHTML demoMethodDoc = Except.ok d :=
  ⟨rfl, (claim1_parse_failure_policy demoMethodDoc).1.mpr (by decide)⟩

/-- A document whose request-example marker heading is followed by a
code block holding the given text. -/
def mkJsonReqDoc (s : String) : HNode :=
  .elem "html"
    [ .elem "h4" [.text "Пример запроса"],
      .elem "pre" [.elem "code" [.text s]] ]

/-- A document whose response-example marker heading is followed by a
code block holding the given text. -/
def mkJsonRespDoc (s : String) : HNode :=
  .elem "html"
    [ .elem "h4" [.text "Пример ответа"],
      .elem "pre" [.elem "code" [.text s]] ]

set_option maxHeartbeats 4000000 in
/-- Claim C9: JSON-example extraction never returns an error for any
document, and when the code block after the request-example marker —
or after the response-example marker — holds text that is not valid
JSON, the extracted example on that side is the empty map rather than
an error. -/
theorem claim9_json_examples :
    (∀ doc, ∃ v, extractJSONExamples doc = .ok v) ∧
    (∀ s : String, jsonParseChars s.data = none →
      extractJSONExamples (mkJsonReqDoc s) = .ok (some [], none)) ∧
    (∀ s : String, jsonParseChars s.data = none →
      extractJSONExamples (mkJsonRespDoc s) = .ok (none, some [])) := by
  refine ⟨fun doc => ⟨_, rfl⟩, fun s h => ?_, fun s h => ?_⟩
  · have heval : extractExampleJSON (mkJsonReqDoc s) "Пример запроса" =
        match jsonParseChars ((s.data ++ []) ++ []) with
        | some m => some m
        | none => some [] := rfl
    rw [List.append_nil, List.append_nil, h] at heval
    unfold extractJSONExamples
    rw [heval]
    rfl
  · have heval : extractExampleJSON (mkJsonRespDoc s) "Пример ответа" =
        match jsonParseChars ((s.data ++ []) ++ []) with
        | some m => some m
        | none => some [] := rfl
    rw [List.append_nil, List.append_nil, h] at heval
    unfold extractJSONExamples
    rw [heval]
    rfl

theorem claim9_json_examples_witness :
    jsonParseChars ("not json").data = none ∧
    extractJSONExamples (mkJsonReqDoc "not json") = .ok (some [], none) ∧
    extractJSONExamples (mkJsonRespDoc "not json") = .ok (none, some []) := by
  have h : jsonParseChars ("not json").data = none := rfl
  exact ⟨h, claim9_json_examples.2.1 "not json" h, claim9_json_examples.2.2 "not json" h⟩

/-! ## Claim C2: parameter-table rows (corrected)

`ExtractRequestParameters` only processes rows with at least 4 cells
(`cells.Length() >= 4`), while the claim says at least 3; a request-table
row with exactly 3 cells and a non-empty name yields no parameter.  The
amended statement is proved on the canonical family of marker-heading +
table documents: request rows need ≥ 4 cells, response rows ≥ 3, and
among rows meeting the threshold exactly those with an empty trimmed
name are dropped, silently. -/

/-- A table cell holding a text. -/
def mkCell (s : String) : HNode := .elem "td" [.text s]

/-- A table row of text cells. -/
def mkRow (r : List String) : HNode := .elem "tr" (r.map mkCell)

/-- A table of text rows. -/
def mkTable (rows : List (List String)) : HNode := .elem "table" (rows.map mkRow)

/-- A document with a marker heading followed by a table. -/
def mkParamDoc (marker : String) (rows : List (List String)) : HNode :=
  .elem "html" [.elem "h4" [.text marker], mkTable rows]

/-- The positional cell-to-field mapping of one table row, written from
the specification's words: request rows use the 5-cell layout (name,
type, required, allowed values, description), response rows the 4-cell
layout (name, type, required, description), and otherwise the final
cell is the description; the required flag compares the lowered trimmed
cell with the affirmative token. -/
def specRowParam (r : List String) (isReq : Bool) : Parameter :=
  { name := goTrimSpace (r.getD 0 ""),
    ptype := goTrimSpace (r.getD 1 ""),
    required := goLower (goTrimSpace (r.getD 2 "")) = "да",
    description :=
      if isReq = true ∧ r.length ≥ 5 then goTrimSpace (r.getD 4 "")
      else if isReq = false ∧ r.length ≥ 4 then goTrimSpace (r.getD 3 "")
      else if r.length ≥ 4 then goTrimSpace (r.getD (r.length - 1) "")
      else "",
    allowedValues :=
      if isReq = true ∧ r.length ≥ 5 then goTrimSpace (r.getD 3 "") else "",
    arrayItemType := "" }

/-- The table extraction the (amended) claim describes: skip the header
row, skip rows under the cell threshold (4 for request tables, 3 for
response tables), drop rows whose trimmed name is empty, and key the
surviving parameters by name. -/
def specParamsFromTable (rows : List (List String)) (minCells : Nat) (isReq : Bool) :
    List (String × Parameter) :=
  (List.enumFrom 0 rows).foldl
    (fun acc pr =>
      if pr.1 = 0 then acc
      else if pr.2.length < minCells then acc
      else
        if (specRowParam pr.2 isReq).name = "" then acc
        else mapAssign acc (specRowParam pr.2 isReq).name (specRowParam pr.2 isReq))
    []

theorem isPrefixOf_self (l : List Char) : l.isPrefixOf l = true := by
  induction l with
  | nil => rfl
  | cons c rest ih => simp [List.isPrefixOf, ih]

theorem charsContain_self (l : List Char) : charsContain l l = true := by
  unfold charsContain
  cases l with
  | nil => rfl
  | cons c rest =>
      rw [List.tails]
      simp [isPrefixOf_self]

theorem dedupFirstAux_eq_self (l : List (List Nat)) :
    ∀ seen, l.Nodup → (∀ p ∈ l, p ∉ seen) → dedupFirstAux seen l = l := by
  induction l with
  | nil => intro seen _ _; rfl
  | cons p rest ih =>
      intro seen hnd hdis
      simp only [List.nodup_cons] at hnd
      have hp : p ∉ seen := hdis p (by simp)
      rw [dedupFirstAux, if_neg hp]
      rw [ih (p :: seen) hnd.2]
      intro q hq
      simp only [List.mem_cons]
      push_neg
      exact ⟨fun he => hnd.1 (he ▸ hq), hdis q (by simp [hq])⟩

theorem dedupFirst_eq_self (l : List (List Nat)) (hnd : l.Nodup) : dedupFirst l = l :=
  dedupFirstAux_eq_self l [] hnd (by simp)

/-- The descendants of a row: each cell and its text node. -/
def rowDescPairs (r : List String) : List (List Nat × HNode) :=
  (List.enumFrom 0 r).flatMap fun pr => [([pr.1], mkCell pr.2), ([pr.1, 0], .text pr.2)]

theorem descList_mkCells (r : List String) :
    ∀ k, descList k (r.map mkCell) =
      (List.enumFrom k r).flatMap fun pr => [([pr.1], mkCell pr.2), ([pr.1, 0], .text pr.2)] := by
  induction r with
  | nil => intro k; rfl
  | cons s rest ih =>
      intro k
      simp only [List.map_cons, descList, List.enumFrom, List.flatMap_cons, ih (k + 1)]
      rfl

theorem descendants_mkRow (r : List String) :
    descendants (mkRow r) = rowDescPairs r := by
  unfold mkRow rowDescPairs
  rw [show descendants (HNode.elem "tr" (r.map mkCell)) = descList 0 (r.map mkCell) from rfl]
  exact descList_mkCells r 0

/-- The descendants of a table: each row with its own descendants. -/
def tableDescPairs (rows : List (List String)) : List (List Nat × HNode) :=
  (List.enumFrom 0 rows).flatMap fun pr =>
    ([pr.1], mkRow pr.2) :: (rowDescPairs pr.2).map fun q => (pr.1 :: q.1, q.2)

theorem descList_mkRows (rows : List (List String)) :
    ∀ k, descList k (rows.map mkRow) =
      (List.enumFrom k rows).flatMap fun pr =>
        ([pr.1], mkRow pr.2) :: (rowDescPairs pr.2).map fun q => (pr.1 :: q.1, q.2) := by
  induction rows with
  | nil => intro k; rfl
  | cons r rest ih =>
      intro k
      simp only [List.map_cons, descList, List.enumFrom, List.flatMap_cons, ih (k + 1),
        descendants_mkRow, List.cons_append]

theorem descendants_mkTable (rows : List (List String)) :
    descendants (mkTable rows) = tableDescPairs rows := by
  unfold mkTable tableDescPairs
  rw [show descendants (HNode.elem "table" (rows.map mkRow)) = descList 0 (rows.map mkRow)
    from rfl]
  exact descList_mkRows rows 0

theorem rowDescPairs_filter (r : List String) (pred : HNode → Bool)
    (hcell : ∀ s, pred (mkCell s) = false) (htext : ∀ s, pred (.text s) = false) :
    (rowDescPairs r).filter (fun pr => pred pr.2) = [] := by
  unfold rowDescPairs
  generalize List.enumFrom 0 r = l
  induction l with
  | nil => rfl
  | cons pr rest ih =>
      simp [List.flatMap_cons, List.filter_append, List.filter_cons, hcell, htext, ih]

theorem rowDescPairs_filter_td (r : List String) :
    (rowDescPairs r).filter (fun pr => tagIs "td" pr.2) =
      (List.enumFrom 0 r).map fun pr => ([pr.1], mkCell pr.2) := by
  unfold rowDescPairs
  generalize List.enumFrom 0 r = l
  induction l with
  | nil => rfl
  | cons pr rest ih =>
      have h1 : ∀ s, tagIs "td" (mkCell s) = true := fun _ => rfl
      have h2 : ∀ s, tagIs "td" (HNode.text s) = false := fun _ => rfl
      simp [List.flatMap_cons, List.filter_append, List.filter_cons, h1, h2, ih]

theorem filtered_rowmap_eq_nil (r : List String) (i : Nat) (pred : HNode → Bool)
    (hcell : ∀ s, pred (mkCell s) = false) (htext : ∀ s, pred (.text s) = false) :
    ((rowDescPairs r).map fun q => (i :: q.1, q.2)).filter (fun pr => pred pr.2) = [] := by
  rw [List.filter_map]
  have hcomp : ((fun pr2 : List Nat × HNode => pred pr2.2) ∘
      fun q : List Nat × HNode => (i :: q.1, q.2)) =
      fun q : List Nat × HNode => pred q.2 := rfl
  rw [hcomp, rowDescPairs_filter r pred hcell htext]
  rfl

theorem tableDescPairs_filter_tr (rows : List (List String)) :
    (tableDescPairs rows).filter (fun pr => tagIs "tr" pr.2) =
      (List.enumFrom 0 rows).map fun pr => ([pr.1], mkRow pr.2) := by
  unfold tableDescPairs
  generalize List.enumFrom 0 rows = l
  induction l with
  | nil => rfl
  | cons pr rest ih =>
      have hrow := filtered_rowmap_eq_nil pr.2 pr.1 (tagIs "tr")
        (fun _ => rfl) (fun _ => rfl)
      have h1 : ∀ r', tagIs "tr" (mkRow r') = true := fun _ => rfl
      simp only [List.flatMap_cons, List.filter_append, List.filter_cons, h1, hrow, ih]
      simp

theorem tableDescPairs_filter_h4 (rows : List (List String)) (marker : String) :
    (tableDescPairs rows).filter (fun pr => tagContains "h4" marker pr.2) = [] := by
  unfold tableDescPairs
  generalize List.enumFrom 0 rows = l
  induction l with
  | nil => rfl
  | cons pr rest ih =>
      have hrow := filtered_rowmap_eq_nil pr.2 pr.1 (tagContains "h4" marker)
        (fun _ => rfl) (fun _ => rfl)
      have h1 : ∀ r', tagContains "h4" marker (mkRow r') = false := fun _ => rfl
      simp only [List.flatMap_cons, List.filter_append, List.filter_cons, h1, hrow, ih]
      simp

theorem selFind_root (doc : HNode) (pred : HNode → Bool) :
    selFind doc [[]] pred =
      dedupFirst (((descendants doc).filter fun pr => pred pr.2).map fun pr => pr.1) := by
  unfold selFind
  have h : nodeAt doc [] = some doc := by cases doc <;> rfl
  simp [h]

theorem selFind_single (doc : HNode) (p : List Nat) (n : HNode) (hn : nodeAt doc p = some n)
    (pred : HNode → Bool) :
    selFind doc [p] pred =
      dedupFirst (((descendants n).filter fun pr => pred pr.2).map fun pr => p ++ pr.1) := by
  unfold selFind
  simp [hn]

theorem header_mkParamDoc (marker : String) (rows : List (List String)) :
    selFind (mkParamDoc marker rows) [[]] (tagContains "h4" marker) = [[0]] := by
  have hd : descendants (mkParamDoc marker rows) =
      ([0], HNode.elem "h4" [HNode.text marker]) :: ([0, 0], HNode.text marker) ::
        ([1], mkTable rows) ::
          ((descendants (mkTable rows)).map fun pr => (1 :: pr.1, pr.2)) := by
    simp [mkParamDoc, descendants, descList]
  have hh4 : tagContains "h4" marker (HNode.elem "h4" [HNode.text marker]) = true := by
    unfold tagContains
    rw [show nodeText (HNode.elem "h4" [HNode.text marker]) = marker.data ++ [] from rfl,
      List.append_nil, charsContain_self]
    rfl
  have htext : tagContains "h4" marker (HNode.text marker) = false := rfl
  have htable : tagContains "h4" marker (mkTable rows) = false := rfl
  have hmapped : (((descendants (mkTable rows)).map fun pr =>
      ((1 :: pr.1 : List Nat), pr.2)).filter fun pr => tagContains "h4" marker pr.2) = [] := by
    rw [descendants_mkTable, List.filter_map]
    have hcomp : ((fun pr : List Nat × HNode => tagContains "h4" marker pr.2) ∘
        fun pr : List Nat × HNode => ((1 :: pr.1 : List Nat), pr.2)) =
        fun pr : List Nat × HNode => tagContains "h4" marker pr.2 := rfl
    rw [hcomp, tableDescPairs_filter_h4]
    rfl
  rw [selFind_root, hd]
  simp only [List.filter_cons, hh4, htext, htable, hmapped]
  simp [dedupFirst, dedupFirstAux]

theorem nodeAt_table (marker : String) (rows : List (List String)) :
    nodeAt (mkParamDoc marker rows) [1] = some (mkTable rows) := rfl

theorem next_header (marker : String) (rows : List (List String)) :
    selNext (mkParamDoc marker rows) [[0]] = [[1]] := rfl

theorem is_table_next (marker : String) (rows : List (List String)) :
    selIs (mkParamDoc marker rows) [[1]] (tagIs "table") = true := rfl

theorem rows_sel (marker : String) (rows : List (List String)) :
    selFind (mkParamDoc marker rows) [[1]] (tagIs "tr") =
      (List.enumFrom 0 rows).map fun pr => [1, pr.1] := by
  rw [selFind_single (mkParamDoc marker rows) [1] (mkTable rows) (nodeAt_table marker rows)]
  rw [descendants_mkTable, tableDescPairs_filter_tr, List.map_map]
  have hcomp : ((fun pr : List Nat × HNode => ([1] : List Nat) ++ pr.1) ∘
      fun pr : Nat × List String => (([pr.1] : List Nat), mkRow pr.2)) =
      fun pr : Nat × List String => ([1, pr.1] : List Nat) := rfl
  rw [hcomp]
  apply dedupFirst_eq_self
  have hmm : ((List.enumFrom 0 rows).map fun pr : Nat × List String => ([1, pr.1] : List Nat)) =
      ((List.enumFrom 0 rows).map Prod.fst).map fun i => ([1, i] : List Nat) := by
    rw [List.map_map]
    rfl
  rw [hmm, List.enumFrom_map_fst]
  refine List.Nodup.map ?_ (List.nodup_range' ..)
  intro a b hab
  simpa using hab

theorem nodeAt_row (marker : String) (rows : List (List String)) (i : Nat) (r : List String)
    (h : rows.get? i = some r) :
    nodeAt (mkParamDoc marker rows) [1, i] = some (mkRow r) := by
  show (match (rows.map mkRow).get? i with
        | some c => nodeAt c []
        | none => none) = some (mkRow r)
  rw [List.get?_map, h]
  rfl

theorem nodeAt_cell (marker : String) (rows : List (List String)) (i j : Nat)
    (r : List String) (s : String) (h : rows.get? i = some r) (hs : r.get? j = some s) :
    nodeAt (mkParamDoc marker rows) [1, i, j] = some (mkCell s) := by
  show (match (rows.map mkRow).get? i with
        | some c => nodeAt c [j]
        | none => none) = some (mkCell s)
  rw [List.get?_map, h]
  show (match (r.map mkCell).get? j with
        | some c => nodeAt c []
        | none => none) = some (mkCell s)
  rw [List.get?_map, hs]
  rfl

theorem cells_sel (marker : String) (rows : List (List String)) (i : Nat) (r : List String)
    (h : rows.get? i = some r) :
    selFind (mkParamDoc marker rows) [[1, i]] (tagIs "td") =
      (List.enumFrom 0 r).map fun pr => [1, i, pr.1] := by
  rw [selFind_single (mkParamDoc marker rows) [1, i] (mkRow r) (nodeAt_row marker rows i r h),
    descendants_mkRow, rowDescPairs_filter_td, List.map_map]
  have hcomp : ((fun pr : List Nat × HNode => ([1, i] : List Nat) ++ pr.1) ∘
      fun pr : Nat × String => (([pr.1] : List Nat), mkCell pr.2)) =
      fun pr : Nat × String => ([1, i, pr.1] : List Nat) := rfl
  rw [hcomp]
  apply dedupFirst_eq_self
  have hmm : ((List.enumFrom 0 r).map fun pr : Nat × String => ([1, i, pr.1] : List Nat)) =
      ((List.enumFrom 0 r).map Prod.fst).map fun j => ([1, i, j] : List Nat) := by
    rw [List.map_map]
    rfl
  rw [hmm, List.enumFrom_map_fst]
  refine List.Nodup.map ?_ (List.nodup_range' ..)
  intro a b hab
  simpa using hab

theorem cells_nodes (marker : String) (rows : List (List String)) (i : Nat) (r : List String)
    (h : rows.get? i = some r) :
    selNodes (mkParamDoc marker rows) ((List.enumFrom 0 r).map fun pr => [1, i, pr.1]) =
      r.map mkCell := by
  unfold selNodes
  rw [List.filterMap_map]
  have hstep : ∀ (l : List (Nat × String)), (∀ pr ∈ l, r.get? pr.1 = some pr.2) →
      (l.filterMap fun pr : Nat × String =>
        nodeAt (mkParamDoc marker rows) [1, i, pr.1]) = l.map fun pr => mkCell pr.2 := by
    intro l
    induction l with
    | nil => intro _; rfl
    | cons pr rest ih =>
        intro hget
        have hhd := nodeAt_cell marker rows i pr.1 r pr.2 h (hget pr (by simp))
        rw [List.filterMap_cons, hhd, List.map_cons, ih (fun q hq => hget q (by simp [hq]))]
  have hcomp : ((fun p => nodeAt (mkParamDoc marker rows) p) ∘
      fun pr : Nat × String => ([1, i, pr.1] : List Nat)) =
      fun pr : Nat × String => nodeAt (mkParamDoc marker rows) [1, i, pr.1] := rfl
  rw [hcomp, hstep]
  · rw [show (fun pr : Nat × String => mkCell pr.2) = mkCell ∘ Prod.snd from rfl,
      ← List.map_map, List.enumFrom_map_snd]
  · intro pr hpr
    have := List.mk_mem_enumFrom_iff_le_and_getElem?_sub.mp hpr
    simpa [List.get?_eq_getElem?] using this.2

theorem parseParameterRow_mkCells (s0 s1 s2 : String) (rest : List String) (isReq : Bool) :
    parseParameterRow ((s0 :: s1 :: s2 :: rest).map mkCell) isReq =
      if goTrimSpace s0 = "" then none
      else some (specRowParam (s0 :: s1 :: s2 :: rest) isReq) := by
  rcases rest with - | ⟨s3, rest1⟩
  · cases isReq <;>
      simp [parseParameterRow, specRowParam, mkCell, nodeDescFilter, descendants, descList,
        tagIs, nodeText, nodesText, goTrimSpace, List.getD]
  · rcases rest1 with - | ⟨s4, rest2⟩
    · cases isReq <;>
        simp [parseParameterRow, specRowParam, mkCell, nodeDescFilter, descendants, descList,
          tagIs, nodeText, nodesText, goTrimSpace, List.getD]
    · have h5 : (s0 :: s1 :: s2 :: s3 :: s4 :: rest2).length ≥ 5 := by
        simp
      have h4 : (s0 :: s1 :: s2 :: s3 :: s4 :: rest2).length ≥ 4 := by
        simp
      cases isReq <;>
        simp [parseParameterRow, specRowParam, mkCell, nodeDescFilter, descendants, descList,
          tagIs, nodeText, nodesText, goTrimSpace, List.getD, h5, h4]

theorem enumFrom_map_idx {α β : Type} (g : Nat → β) :
    ∀ (l : List α) (k : Nat),
      List.enumFrom k ((List.enumFrom k l).map fun pr => g pr.1) =
        (List.enumFrom k l).map fun pr => (pr.1, g pr.1) := by
  intro l
  induction l with
  | nil => intro k; rfl
  | cons a rest ih =>
      intro k
      simp only [List.enumFrom, List.map_cons, ih (k + 1)]

theorem foldl_congr_mem {α β : Type} (l : List α) (f g : β → α → β) :
    ∀ b, (∀ b' x, x ∈ l → f b' x = g b' x) → l.foldl f b = l.foldl g b := by
  induction l with
  | nil => intro b _; rfl
  | cons a rest ih =>
      intro b hfg
      simp only [List.foldl_cons]
      rw [hfg b a (by simp)]
      exact ih _ (fun b' x hx => hfg b' x (by simp [hx]))

theorem mem_enumFrom_get? {α : Type} {l : List α} {i : Nat} {x : α}
    (h : (i, x) ∈ List.enumFrom 0 l) : l.get? i = some x := by
  have := List.mk_mem_enumFrom_iff_le_and_getElem?_sub.mp h
  simpa [List.get?_eq_getElem?] using this.2

theorem extractParametersWith_mkParamDoc (marker : String) (rows : List (List String))
    (minCells : Nat) (isReq : Bool) (hmc : 3 ≤ minCells) :
    extractParametersWith (mkParamDoc marker rows) marker minCells isReq =
      .ok (specParamsFromTable rows minCells isReq) := by
  unfold extractParametersWith
  rw [header_mkParamDoc]
  rw [if_neg (by simp)]
  rw [next_header]
  rw [if_neg (by simp [is_table_next])]
  rw [rows_sel]
  dsimp only
  rw [List.enum_eq_enumFrom, enumFrom_map_idx (fun i => ([1, i] : List Nat)) rows 0,
    List.foldl_map]
  unfold specParamsFromTable
  congr 1
  apply foldl_congr_mem
  intro acc pr hpr
  obtain ⟨i, r⟩ := pr
  dsimp only
  have hget : rows.get? i = some r := mem_enumFrom_get? hpr
  by_cases hi : i = 0
  · simp [hi]
  · rw [if_neg hi, if_neg hi]
    rw [cells_sel marker rows i r hget, cells_nodes marker rows i r hget]
    rw [List.length_map]
    by_cases hlen : r.length ≥ minCells
    · rw [if_pos hlen, if_neg (by omega)]
      obtain ⟨s0, s1, s2, rest, rfl⟩ : ∃ s0 s1 s2 rest, r = s0 :: s1 :: s2 :: rest := by
        match r, hlen with
        | r0 :: r1 :: r2 :: rrest, _ => exact ⟨r0, r1, r2, rrest, rfl⟩
        | [], h => exact absurd h (by simp; omega)
        | [r0], h => exact absurd h (by simp; omega)
        | [r0, r1], h => exact absurd h (by simp; omega)
      rw [parseParameterRow_mkCells]
      have hnm : (specRowParam (s0 :: s1 :: s2 :: rest) isReq).name = goTrimSpace s0 := rfl
      by_cases hempty : goTrimSpace s0 = ""
      · rw [if_pos hempty, if_pos (by rw [hnm]; exact hempty)]
      · rw [if_neg hempty, if_neg (by rw [hnm]; exact hempty)]
    · rw [if_neg hlen, if_pos (by omega)]

/-- Claim C2 (amended): on marker-heading + table documents, request
extraction processes exactly the non-header rows with at least 4 cells
and response extraction those with at least 3; among processed rows
exactly those whose trimmed name is empty are dropped, silently, the
rest mapping cell positions to fields; and neither extractor can return
an error for any document. -/
theorem claim2_parameter_rows :
    (∀ rows, extractRequestParameters (mkParamDoc "Параметры запроса" rows) =
       .ok (specParamsFromTable rows 4 true)) ∧
    (∀ rows, extractResponseParameters (mkParamDoc "Параметры ответа" rows) =
       .ok (specParamsFromTable rows 3 false)) ∧
    (∀ doc, (∃ v, extractRequestParameters doc = .ok v) ∧
            (∃ v, extractResponseParameters doc = .ok v)) ∧
    (∀ cells isReq p, parseParameterRow cells isReq = some p → p.name ≠ "") := by
  refine ⟨fun rows => extractParametersWith_mkParamDoc _ rows 4 true (by omega),
          fun rows => extractParametersWith_mkParamDoc _ rows 3 false (by omega),
          fun doc => ⟨extractParametersWith_isOk doc _ 4 true,
                      extractParametersWith_isOk doc _ 3 false⟩,
          ?_⟩
  intro cells isReq p hp
  rcases cells with - | ⟨c0, - | ⟨c1, - | ⟨c2, rest⟩⟩⟩
  · cases hp
  · cases hp
  · cases hp
  · by_cases h : (if (nodeDescFilter c0 (tagIs "code")).length > 0 then
        (⟨trimSpaceChars (nodesText (nodeDescFilter c0 (tagIs "code")))⟩ : String)
      else ⟨trimSpaceChars (nodeText c0)⟩) = ""
    · simp only [parseParameterRow, if_pos h] at hp
      cases hp
    · simp only [parseParameterRow, if_neg h] at hp
      rw [← Option.some.inj hp]
      simpa using h

/-- A request-parameters document whose second row has exactly 3 cells
with a non-empty name. -/
def shortRowDoc : HNode :=
  mkParamDoc "Параметры запроса" [["n", "t", "r", "x", "d"], ["amount", "string", "да"]]

/-- Claim C2 counterexample: in the document above, the non-header row
has exactly 3 cells and parses to a parameter named `amount`, yet
request extraction returns the empty map — the extractor requires at
least 4 cells per request row, not 3 as claimed. -/
theorem claim2_parameter_rows_counterexample :
    extractRequestParameters shortRowDoc = .ok [] ∧
    (selNodes shortRowDoc (selFind shortRowDoc [[1, 1]] (tagIs "td"))).length = 3 ∧
    parseParameterRow (selNodes shortRowDoc (selFind shortRowDoc [[1, 1]] (tagIs "td"))) true =
      some ⟨"amount", "string", true, "", "", ""⟩ :=
  ⟨rfl, rfl, rfl⟩

/-- A small request-parameters table: header, one complete row, one row
with an empty name. -/
def demoRows : List (List String) :=
  [["Имя", "Тип", "Обязательный", "Допустимые значения", "Описание"],
   ["contact_id", "number", "да", "", "Contact identifier"],
   ["", "string", "нет", "", "dropped"]]

theorem claim2_parameter_rows_witness :
    extractRequestParameters (mkParamDoc "Параметры запроса" demoRows) =
      .ok (specParamsFromTable demoRows 4 true) ∧
    specParamsFromTable demoRows 4 true =
      [("contact_id", ⟨"contact_id", "number", true, "Contact identifier", "", ""⟩)] :=
  ⟨claim2_parameter_rows.1 demoRows, rfl⟩
